import Mathlib

/-!
Verification development for the `deccp` batch-decompile orchestrator
(`src/main.py`).  The program unzips `.pyj` members of an archive, feeds
each through a decompression + decompile pipeline on a worker pool, writes
recovered sources under `<out>/client_code/`, and aggregates per-item
failures into `<out>/decompile_errors.json`.

Modelling conventions:
* Byte strings are `List Nat`; paths are plain `String`s built with POSIX
  `pathlib` join semantics (an absolute right operand replaces the left
  operand).  `pathlib`'s parse-time normalisation of duplicate slashes and
  `.` components is not modelled; no claim depends on it.
* The external collaborators (`zlib.decompress`, `xdis.load`,
  `uncompyle6.decompile`) are an injectable `Collab` record whose fields
  return `Except String _`; `Except.error m` models a raised exception
  whose `str` is `m`.
* The filesystem is a record of files (path to content) and directories;
  the worker pool's completion order (`as_completed`) is an arbitrary
  permutation `sched` of the submitted work list.  The sink's
  `mkdir(parents=True, exist_ok=True)` creates the whole ancestor chain
  and fails on a blocking regular file; `write_text` fails on a directory
  at the destination; both failures are caught by the sink's `try` and
  recorded in the error map, exactly as at `main.py` lines 146-157.
* `ProcessPoolExecutor(max_workers=j)` raises
  `ValueError("max_workers must be greater than 0")` when `j <= 0`
  (CPython `concurrent.futures` semantics); `runMain` records this as a
  `fatal` outcome.
-/

namespace Deccp

abbrev Bytes := List Nat

/-- Model of Python `str.endswith` on entry names (`main.py` line 126). -/
def strHasSuffix (s suf : String) : Bool := List.isSuffixOf suf.data s.data

/-- Final path component: everything after the last `/` (Python `Path.name`). -/
def compNameL (l : List Char) : List Char :=
  (l.reverse.takeWhile (fun c => !(c == '/'))).reverse

/-- Index of the last `.` in a name, Python `str.rfind('.')`. -/
def rfindDot (nm : List Char) : Option Nat :=
  match nm.reverse.findIdx? (fun c => c == '.') with
  | some k => some (nm.length - 1 - k)
  | none => none

/-- Python `PurePath.suffix` of a (final) name component: the part from the
last dot, provided that dot is neither the leading character nor the final
character; otherwise empty. -/
def pySuffix (nm : List Char) : List Char :=
  match rfindDot nm with
  | some i => if 0 < i ∧ i < nm.length - 1 then nm.drop i else []
  | none => []

/-- Python `Path.with_suffix`: drop the current suffix of the final
component (a suffix of the whole rendered path) and append `suf`.  The
`ValueError` raised on an empty name is not modelled; every call site in
`main.py` passes a path whose final component ends in `.pyj`. -/
def withSuffixL (l : List Char) (suf : List Char) : List Char :=
  l.take (l.length - (pySuffix (compNameL l)).length) ++ suf

/-- Does the path string start with `/`? -/
def isAbs (s : String) : Bool :=
  match s.data with
  | c :: _ => c == '/'
  | [] => false

/-- POSIX `pathlib` join: an absolute right operand replaces the left one. -/
def pathJoinL (a b : List Char) : List Char :=
  if b.head? == some '/' then b else a ++ '/' :: b

def pathJoin (a b : String) : String := ⟨pathJoinL a.data b.data⟩

/-- Destination path as computed by the work selector,
`(client_code_dir / member_name_in_zip).with_suffix(".py")` (line 128). -/
def destSelect (ccd : String) (n : String) : String :=
  ⟨withSuffixL (pathJoinL ccd.data n.data) ['.', 'p', 'y']⟩

/-- Destination path as recomputed by the result sink, the same expression
at line 145. -/
def destSink (ccd : String) (n : String) : String :=
  ⟨withSuffixL (pathJoinL ccd.data n.data) ['.', 'p', 'y']⟩

/-- Python `Path.parent` of a rendered path. -/
def parentDirL (l : List Char) : List Char :=
  let pre := l.take (l.length - (compNameL l).length)
  if pre == [] then ['.']
  else if pre == ['/'] then ['/']
  else pre.dropLast

def parentDir (p : String) : String := ⟨parentDirL p.data⟩

/-- Association-list lookup (first match wins), the read view of a Python
`dict`. -/
def assocLookup {α : Type} (m : List (String × α)) (k : String) : Option α :=
  match m with
  | [] => none
  | q :: rest => if q.1 == k then some q.2 else assocLookup rest k

/-- Python `dict` assignment `m[k] = v`: overwrite in place if the key is
present (insertion order kept), else append. -/
def dictInsert (m : List (String × String)) (k v : String) :
    List (String × String) :=
  if m.any (fun q => q.1 == k) then
    m.map (fun q => if q.1 == k then (k, v) else q)
  else m ++ [(k, v)]

/-- Filesystem state: regular files (path to content) and directories. -/
structure FS where
  files : List (String × String)
  dirs : List String
deriving DecidableEq

def FS.hasFile (fs : FS) (p : String) : Bool := fs.files.any (fun q => q.1 == p)

def FS.hasDir (fs : FS) (p : String) : Bool := fs.dirs.any (fun d => d == p)

/-- Python `Path.exists()`: true for a file or a directory at the path. -/
def FS.existsPath (fs : FS) (p : String) : Bool := fs.hasFile p || fs.hasDir p

/-- Record one directory if absent: the success effect of a single
`os.mkdir` call.  Also models the startup `client_code_dir.mkdir` at line
121, whose ancestor creation and file-collision failure are immaterial to
the claims (every destination ends in `.py`, so no run event touches the
output base's ancestor chain, and no claim addresses an initial state in
which a regular file blocks `client_code/` — the real process would abort
at line 121 before doing anything else). -/
def FS.mkdirAt (fs : FS) (p : String) : FS :=
  if fs.hasDir p then fs else { fs with dirs := fs.dirs ++ [p] }

/-- Raw create-or-truncate write: the success effect of `open(p, "w")`
plus write.  `FS.writeText` below adds the failure mode. -/
def FS.writeFile (fs : FS) (p : String) (content : String) : FS :=
  if fs.hasFile p then
    { fs with files := fs.files.map (fun q => if q.1 == p then (p, content) else q) }
  else
    { fs with files := fs.files ++ [(p, content)] }

def FS.readFile (fs : FS) (p : String) : Option String := assocLookup fs.files p

/-- The chain of paths visited by a recursive `mkdir(parents=True)` on
`d`: `d`, its parent, its grandparent, ... up to a `parentDir` fixpoint
(`/` or `.`).  The fuel is an upper bound on the chain length; every use
supplies `d.data.length + 2`, which suffices because `parentDir` either
shortens the path or reaches a fixpoint within one further step. -/
def chainTo (fuel : Nat) (d : String) : List String :=
  match fuel with
  | 0 => []
  | fuel + 1 => if parentDir d == d then [d] else d :: chainTo fuel (parentDir d)

/-- The proper ancestors of `p` (its parent directory chain): exactly the
paths the sink's `out_path.parent.mkdir(parents=True, exist_ok=True)` may
create or inspect. -/
def ancestorsOf (p : String) : List String :=
  chainTo ((parentDir p).data.length + 2) (parentDir p)

/-- `Path.mkdir(parents=True, exist_ok=True)`, CPython semantics: an
existing directory at the target is fine; a regular file at the target
(or at a missing ancestor that must be created) raises — modelled as a
deterministic `File exists:` message naming the blocking path (when the
block is deeper than the immediate target CPython's errno text differs,
but no claim depends on the exact wording); otherwise the parent chain is
created first and then the target.  A `parentDir` fixpoint (`/` or `.`)
always exists on a real filesystem and is recorded as present.  The fuel
(always supplied as `d.data.length + 2`) bounds the recursion. -/
def FS.mkdirRec (fuel : Nat) (fs : FS) (d : String) : Except String FS :=
  match fuel with
  | 0 => Except.error "mkdir recursion depth exceeded"
  | fuel + 1 =>
    if fs.hasDir d then Except.ok fs
    else if fs.hasFile d then Except.error ("File exists: " ++ d)
    else if parentDir d == d then Except.ok (fs.mkdirAt d)
    else
      match FS.mkdirRec fuel fs (parentDir d) with
      | Except.error m => Except.error m
      | Except.ok fs2 => Except.ok (fs2.mkdirAt d)

def FS.mkdirParents (fs : FS) (d : String) : Except String FS :=
  FS.mkdirRec (d.data.length + 2) fs d

/-- `Path.write_text`: raises `IsADirectoryError` when a directory
occupies the path (message modelled deterministically), otherwise a
create-or-truncate write. -/
def FS.writeText (fs : FS) (p : String) (content : String) :
    Except String FS :=
  if fs.hasDir p then Except.error ("Is a directory: " ++ p)
  else Except.ok (fs.writeFile p content)

/-- Result of `xdis.load.load_module_from_file_object`: the 7-tuple
`(version, timestamp, magic, code, is_pypy, source_size, _)`; `code` is
`Option` so the falsy `None` case of `if not code:` is representable. -/
structure LoadedMod where
  version : String
  ts : Nat
  magic : Nat
  code : Option Nat
  pypy : Bool
  srcSize : Nat
  extra : Nat
deriving DecidableEq

/-- The external collaborators consumed by `decompile_pyj_blob`.
`Except.error m` stands for a raised exception with `str(e) = m`. -/
structure Collab where
  zlibDecompress : Bytes → Except String Bytes
  loadModule : Bytes → String → Except String LoadedMod
  uncompyleDecompile : Nat → String → Bool → Nat → Nat → Nat → Except String String

/-- `decompile_pyj_blob` (lines 36-78): decompress (`_unzip_zlib_stream`,
a direct `zlib.decompress` whose exception propagates), load the code
object (exceptions wrapped in a `RuntimeError` message), reject a missing
code object, then decompile.  Logging is not modelled. -/
def decompile_pyj_blob (c : Collab) (blob : Bytes) (source_file : String) :
    Except String String :=
  match c.zlibDecompress blob with
  | .error m => .error m
  | .ok data =>
    match c.loadModule data source_file with
    | .error e =>
      .error ("[" ++ source_file ++ "] Failed to load code object: " ++ e)
    | .ok lm =>
      match lm.code with
      | none => .error ("[" ++ source_file ++ "] No code object found.")
      | some cd => c.uncompyleDecompile cd lm.version lm.pypy lm.magic lm.ts lm.srcSize

/-- `process_pyj_member` (lines 81-93): the per-item adapter; returns
`(member_name_in_zip, decompiled_source_code, error_message)`, catching
every exception of the pipeline and turning it into the third component. -/
def process_pyj_member (c : Collab) (args : String × Bytes) :
    String × String × String :=
  match decompile_pyj_blob c args.2 args.1 with
  | .ok source => (args.1, source, "")
  | .error e => (args.1, "", e)

/-- Error-message component of the adapter result for one work item. -/
def errOf (c : Collab) (w : String × Bytes) : String :=
  (process_pyj_member c w).2.2

/-- Source-text component of the adapter result for one work item. -/
def srcOf (c : Collab) (w : String × Bytes) : String :=
  (process_pyj_member c w).2.1

/-- The input archive: the member-name list (`zf.namelist()`) and the
by-name byte reader (`zf.read(name)`). -/
structure Archive where
  names : List String
  read : String → Bytes

/-- The selection loop (lines 125-133): keep `.pyj` members whose
destination does not already exist, reading their bytes by name. -/
def selectWork (fs : FS) (arch : Archive) (ccd : String) :
    List (String × Bytes) :=
  arch.names.filterMap (fun n =>
    if strHasSuffix n ".pyj" then
      if fs.existsPath (destSelect ccd n) then none
      else some (n, arch.read n)
    else none)

/-- Mutable state owned by the result-sink loop: the filesystem and the
`errors` dict. -/
structure SinkState where
  fs : FS
  errors : List (String × String)
deriving DecidableEq

/-- One iteration of the `as_completed` loop (lines 143-157): run the
adapter; a non-empty error message is recorded
(`errors[member] = error`); otherwise the sink attempts
`out_path.parent.mkdir(parents=True, exist_ok=True)` followed by
`out_path.write_text(source)` — both inside the `try`, so an exception of
either step is caught at line 155 and recorded under the member's name.
A failing mkdir leaves the filesystem unchanged (on a real filesystem a
blocking file means its own ancestors already exist, so nothing was
created); a failing write keeps the directories the mkdir created. -/
def applyOutcome (c : Collab) (ccd : String) (st : SinkState)
    (w : String × Bytes) : SinkState :=
  let r := process_pyj_member c w
  let out := destSink ccd r.1
  if r.2.2 == "" then
    match st.fs.mkdirParents (parentDir out) with
    | Except.error m => { st with errors := dictInsert st.errors r.1 m }
    | Except.ok fs2 =>
      match fs2.writeText out r.2.1 with
      | Except.error m => { fs := fs2, errors := dictInsert st.errors r.1 m }
      | Except.ok fs3 => { st with fs := fs3 }
  else
    { st with errors := dictInsert st.errors r.1 r.2.2 }

/-- Drain the pool: apply every completed outcome, in completion order. -/
def runSink (c : Collab) (ccd : String) (st : SinkState)
    (items : List (String × Bytes)) : SinkState :=
  items.foldl (applyOutcome c ccd) st

/-- Observable outcome of one invocation of `main` (after CLI parsing):
a fatal top-level exception if any, the filesystem, the final `errors`
dict, the diagnostic JSON artifact (path and content) if present, and the
names submitted to the adapter. -/
structure RunResult where
  fatal : Option String
  fs : FS
  errors : List (String × String)
  errJson : Option (String × String)
  calls : List String
deriving DecidableEq

def clientDir (outBase : String) : String := pathJoin outBase "client_code"

def errorsPath (outBase : String) : String :=
  pathJoin outBase "decompile_errors.json"

def quoteJson (s : String) : String := "\"" ++ s ++ "\""

/-- Rendering of `json.dump(errors, f, indent=2, ensure_ascii=False)`: a
function of the ordered entry list (indentation and escaping abstracted). -/
def serializeErrors (m : List (String × String)) : String :=
  "\x7b" ++ String.intercalate ", "
    (m.map (fun kv => quoteJson kv.1 ++ ": " ++ quoteJson kv.2)) ++ "\x7d"

/-- `main` (lines 96-165) after argument parsing: `outBase` is the
resolved `output_base_dir`, `jobs` the `-j` value, `sched` the completion
order imposed by `as_completed`, `fs0` the initial filesystem and `ej0`
the pre-existing diagnostic artifact (never read, only overwritten).
Mirrors: make `client_code/`, select work, return early on empty work,
raise from `ProcessPoolExecutor` when `jobs <= 0`, drain the pool through
the sink, then write the diagnostic file only when `errors` is non-empty. -/
def runMain (c : Collab) (arch : Archive) (outBase : String) (jobs : Int)
    (sched : List (String × Bytes) → List (String × Bytes)) (fs0 : FS)
    (ej0 : Option (String × String)) : RunResult :=
  let ccd := clientDir outBase
  let fs1 := fs0.mkdirAt ccd
  let work := selectWork fs1 arch ccd
  if work.isEmpty then
    { fatal := none, fs := fs1, errors := [], errJson := ej0, calls := [] }
  else if jobs ≤ 0 then
    { fatal := some "max_workers must be greater than 0", fs := fs1,
      errors := [], errJson := ej0, calls := [] }
  else
    let items := sched work
    let done := runSink c ccd { fs := fs1, errors := [] } items
    let ej := if done.errors.isEmpty then ej0
      else some (errorsPath outBase, serializeErrors done.errors)
    { fatal := none, fs := done.fs, errors := done.errors, errJson := ej,
      calls := items.map (fun w => w.1) }

/-- The work list of a run, as `main` computes it (selection happens after
the unconditional `client_code/` mkdir). -/
def workOf (arch : Archive) (outBase : String) (fs0 : FS) :
    List (String × Bytes) :=
  selectWork (fs0.mkdirAt (clientDir outBase)) arch (clientDir outBase)

/-! ### Basic lemmas about the adapter, the dict and the filesystem -/

theorem process_name (c : Collab) (w : String × Bytes) :
    (process_pyj_member c w).1 = w.1 := by
  unfold process_pyj_member
  cases decompile_pyj_blob c w.2 w.1 <;> rfl

theorem process_eta (c : Collab) (w : String × Bytes) :
    process_pyj_member c w = (w.1, srcOf c w, errOf c w) := by
  unfold srcOf errOf process_pyj_member
  cases decompile_pyj_blob c w.2 w.1 <;> rfl

theorem applyOutcome_fail (c : Collab) (ccd : String) (st : SinkState)
    (w : String × Bytes) (h : ¬ errOf c w = "") :
    applyOutcome c ccd st w =
      { st with errors := dictInsert st.errors w.1 (errOf c w) } := by
  unfold applyOutcome
  rw [process_eta]
  simp [h]

theorem applyOutcome_mkdir_fail (c : Collab) (ccd : String) (st : SinkState)
    (w : String × Bytes) (m : String) (h : errOf c w = "")
    (hm : st.fs.mkdirParents (parentDir (destSink ccd w.1)) =
      Except.error m) :
    applyOutcome c ccd st w =
      { st with errors := dictInsert st.errors w.1 m } := by
  unfold applyOutcome
  rw [process_eta]
  simp [h, hm]

theorem applyOutcome_write_fail (c : Collab) (ccd : String) (st : SinkState)
    (w : String × Bytes) (fs2 : FS) (m : String) (h : errOf c w = "")
    (hm : st.fs.mkdirParents (parentDir (destSink ccd w.1)) = Except.ok fs2)
    (hw : fs2.writeText (destSink ccd w.1) (srcOf c w) = Except.error m) :
    applyOutcome c ccd st w =
      { fs := fs2, errors := dictInsert st.errors w.1 m } := by
  unfold applyOutcome
  rw [process_eta]
  simp [h, hm, hw]

theorem applyOutcome_write_ok (c : Collab) (ccd : String) (st : SinkState)
    (w : String × Bytes) (fs2 fs3 : FS) (h : errOf c w = "")
    (hm : st.fs.mkdirParents (parentDir (destSink ccd w.1)) = Except.ok fs2)
    (hw : fs2.writeText (destSink ccd w.1) (srcOf c w) = Except.ok fs3) :
    applyOutcome c ccd st w = { st with fs := fs3 } := by
  unfold applyOutcome
  rw [process_eta]
  simp [h, hm, hw]

/-- Complete case analysis of one sink iteration. -/
theorem applyOutcome_cases (c : Collab) (ccd : String) (st : SinkState)
    (v : String × Bytes) :
    (¬ errOf c v = "" ∧ applyOutcome c ccd st v =
      { st with errors := dictInsert st.errors v.1 (errOf c v) }) ∨
    (∃ m, errOf c v = "" ∧
      st.fs.mkdirParents (parentDir (destSink ccd v.1)) = Except.error m ∧
      applyOutcome c ccd st v =
        { st with errors := dictInsert st.errors v.1 m }) ∨
    (∃ fs2 m, errOf c v = "" ∧
      st.fs.mkdirParents (parentDir (destSink ccd v.1)) = Except.ok fs2 ∧
      fs2.hasDir (destSink ccd v.1) = true ∧
      m = "Is a directory: " ++ destSink ccd v.1 ∧
      applyOutcome c ccd st v =
        { fs := fs2, errors := dictInsert st.errors v.1 m }) ∨
    (∃ fs2, errOf c v = "" ∧
      st.fs.mkdirParents (parentDir (destSink ccd v.1)) = Except.ok fs2 ∧
      fs2.hasDir (destSink ccd v.1) = false ∧
      applyOutcome c ccd st v =
        { fs := fs2.writeFile (destSink ccd v.1) (srcOf c v),
          errors := st.errors }) := by
  by_cases h : errOf c v = ""
  · cases hm : st.fs.mkdirParents (parentDir (destSink ccd v.1)) with
    | error m =>
      exact Or.inr (Or.inl ⟨m, h, rfl,
        applyOutcome_mkdir_fail c ccd st v m h hm⟩)
    | ok fs2 =>
      by_cases hd : fs2.hasDir (destSink ccd v.1) = true
      · refine Or.inr (Or.inr (Or.inl ⟨fs2, _, h, rfl, hd, rfl, ?_⟩))
        refine applyOutcome_write_fail c ccd st v fs2 _ h hm ?_
        unfold FS.writeText
        rw [if_pos hd]
      · have hdf : fs2.hasDir (destSink ccd v.1) = false := by
          cases hb : fs2.hasDir (destSink ccd v.1) with
          | false => rfl
          | true => exact absurd hb hd
        refine Or.inr (Or.inr (Or.inr ⟨fs2, h, rfl, hdf, ?_⟩))
        refine applyOutcome_write_ok c ccd st v fs2 _ h hm ?_
        unfold FS.writeText
        rw [if_neg (by simp [hdf])]
  · exact Or.inl ⟨h, applyOutcome_fail c ccd st v h⟩

theorem any_key_map_set (files : List (String × String)) (k v p : String) :
    ((files.map (fun q => if q.1 == k then (k, v) else q)).any
      (fun q => q.1 == p)) = files.any (fun q => q.1 == p) := by
  induction files with
  | nil => rfl
  | cons r t ih =>
    simp only [List.map_cons, List.any_cons, ih]
    by_cases h : r.1 == k
    · have hk : r.1 = k := eq_of_beq h
      simp [h, hk]
    · simp [h]

theorem FS.hasFile_writeFile (fs : FS) (q s p : String) :
    (fs.writeFile q s).hasFile p = true ↔ (fs.hasFile p = true ∨ p = q) := by
  unfold FS.writeFile
  by_cases h : fs.hasFile q = true
  · rw [if_pos h]
    show ((fs.files.map _).any _) = true ↔ _
    unfold FS.hasFile at h ⊢
    rw [any_key_map_set]
    exact ⟨Or.inl, fun hc => hc.elim id (fun he => he ▸ h)⟩
  · rw [if_neg h]
    show ((fs.files ++ [(q, s)]).any _) = true ↔ _
    unfold FS.hasFile at h ⊢
    simp only [List.any_append, List.any_cons, List.any_nil,
      Bool.or_false, Bool.or_eq_true, beq_iff_eq]
    exact or_congr Iff.rfl (by exact ⟨fun e => e.symm, fun e => e.symm⟩)

theorem FS.dirs_writeFile (fs : FS) (q s : String) :
    (fs.writeFile q s).dirs = fs.dirs := by
  unfold FS.writeFile
  split <;> rfl

theorem FS.files_mkdirAt (fs : FS) (d : String) :
    (fs.mkdirAt d).files = fs.files := by
  unfold FS.mkdirAt
  split <;> rfl

theorem FS.hasFile_mkdirAt (fs : FS) (d p : String) :
    (fs.mkdirAt d).hasFile p = fs.hasFile p := by
  unfold FS.hasFile
  rw [FS.files_mkdirAt]

theorem FS.hasDir_writeFile (fs : FS) (q s p : String) :
    (fs.writeFile q s).hasDir p = fs.hasDir p := by
  unfold FS.hasDir
  rw [FS.dirs_writeFile]

theorem FS.hasDir_mkdirAt (fs : FS) (d x : String) :
    (fs.mkdirAt d).hasDir x = true ↔ (fs.hasDir x = true ∨ x = d) := by
  unfold FS.mkdirAt
  by_cases h : fs.hasDir d = true
  · rw [if_pos h]
    exact ⟨Or.inl, fun hc => hc.elim id (fun he => he ▸ h)⟩
  · rw [if_neg h]
    show ((fs.dirs ++ [d]).any _) = true ↔ _
    unfold FS.hasDir at h ⊢
    simp only [List.any_append, List.any_cons, List.any_nil,
      Bool.or_false, Bool.or_eq_true, beq_iff_eq]
    exact or_congr Iff.rfl (by exact ⟨fun e => e.symm, fun e => e.symm⟩)

theorem FS.mkdirAt_of_hasDir (fs : FS) (d : String) (h : fs.hasDir d = true) :
    fs.mkdirAt d = fs := by
  unfold FS.mkdirAt
  rw [if_pos h]

theorem FS.hasDir_mkdirAt_self (fs : FS) (d : String) :
    (fs.mkdirAt d).hasDir d = true := by
  rw [FS.hasDir_mkdirAt]
  exact Or.inr rfl

theorem assocLookup_nil {α : Type} (k : String) :
    assocLookup ([] : List (String × α)) k = none := rfl

theorem assocLookup_cons {α : Type} (r : String × α) (t : List (String × α))
    (k : String) :
    assocLookup (r :: t) k = if r.1 == k then some r.2 else assocLookup t k := rfl

theorem assocLookup_append {α : Type} (m₁ m₂ : List (String × α)) (k : String) :
    assocLookup (m₁ ++ m₂) k =
      match assocLookup m₁ k with
      | some v => some v
      | none => assocLookup m₂ k := by
  induction m₁ with
  | nil => rfl
  | cons r t ih =>
    rw [List.cons_append, assocLookup_cons, assocLookup_cons]
    by_cases h : (r.1 == k) = true
    · rw [if_pos h, if_pos h]
    · rw [if_neg h, if_neg h, ih]

theorem assocLookup_map_set_ne (m : List (String × String)) (k v x : String)
    (h : ¬ x = k) :
    assocLookup (m.map (fun q => if q.1 == k then (k, v) else q)) x =
      assocLookup m x := by
  induction m with
  | nil => rfl
  | cons r t ih =>
    simp only [List.map_cons]
    unfold assocLookup
    by_cases hr : r.1 == k
    · have hk : r.1 = k := eq_of_beq hr
      have hx : ¬ (k == x) = true := fun hc => h (eq_of_beq hc).symm
      have hx2 : ¬ (r.1 == x) = true := fun hc => h ((hk ▸ eq_of_beq hc)).symm
      simp only [hr, if_true, if_pos]
      rw [if_neg hx, if_neg hx2]
      exact ih
    · simp only [hr, Bool.false_eq_true, if_false]
      by_cases hrx : r.1 == x
      · rw [if_pos hrx, if_pos hrx]
      · rw [if_neg hrx, if_neg hrx]
        exact ih

theorem assocLookup_map_set_self (m : List (String × String)) (k v : String)
    (h : m.any (fun q => q.1 == k) = true) :
    assocLookup (m.map (fun q => if q.1 == k then (k, v) else q)) k = some v := by
  induction m with
  | nil => simp at h
  | cons r t ih =>
    simp only [List.map_cons]
    by_cases hr : (r.1 == k) = true
    · rw [if_pos hr, assocLookup_cons]
      simp
    · rw [if_neg hr, assocLookup_cons, if_neg hr]
      refine ih ?_
      simpa [hr] using h

theorem assocLookup_none_of_not_any {α : Type} (m : List (String × α))
    (k : String) (h : m.any (fun q => q.1 == k) = false) :
    assocLookup m k = none := by
  induction m with
  | nil => rfl
  | cons r t ih =>
    simp only [List.any_cons, Bool.or_eq_false_iff] at h
    unfold assocLookup
    rw [if_neg (by simp [h.1])]
    exact ih h.2

theorem assocLookup_dictInsert (m : List (String × String)) (k v x : String) :
    assocLookup (dictInsert m k v) x =
      if x = k then some v else assocLookup m x := by
  unfold dictInsert
  by_cases hm : m.any (fun q => q.1 == k) = true
  · rw [if_pos hm]
    by_cases hx : x = k
    · rw [if_pos hx, hx]
      exact assocLookup_map_set_self m k v hm
    · rw [if_neg hx]
      exact assocLookup_map_set_ne m k v x hx
  · rw [if_neg hm]
    rw [assocLookup_append]
    have hfalse : m.any (fun q => q.1 == k) = false := by
      cases hb : m.any (fun q => q.1 == k) with
      | false => rfl
      | true => exact absurd hb hm
    have hnone : assocLookup m k = none :=
      assocLookup_none_of_not_any m k hfalse
    by_cases hx : x = k
    · subst hx
      rw [hnone]
      simp [assocLookup]
    · rw [if_neg hx]
      cases hml : assocLookup m x with
      | some v2 => rfl
      | none =>
        show assocLookup [(k, v)] x = none
        unfold assocLookup
        rw [if_neg (fun hc => hx (eq_of_beq hc).symm)]
        rfl

theorem dictInsert_ne_nil (m : List (String × String)) (k v : String) :
    ¬ dictInsert m k v = [] := by
  unfold dictInsert
  by_cases hm : m.any (fun q => q.1 == k) = true
  · rw [if_pos hm]
    intro hc
    rw [List.map_eq_nil_iff] at hc
    subst hc
    simp at hm
  · rw [if_neg hm]
    intro hc
    have hlen := congrArg List.length hc
    simp at hlen

/-! ### The recursive mkdir: chains, creation, blocking and persistence -/

theorem parentDir_shrink (p : String) :
    parentDir (parentDir p) = parentDir p ∨
      (parentDir p).data.length < p.data.length := by
  have hstruct : parentDir p =
      ⟨if (p.data.take (p.data.length - (compNameL p.data).length)) == []
        then ['.']
        else if (p.data.take (p.data.length - (compNameL p.data).length))
            == ['/'] then ['/']
        else (p.data.take (p.data.length -
          (compNameL p.data).length)).dropLast⟩ := rfl
  by_cases h1 : ((p.data.take (p.data.length - (compNameL p.data).length))
      == []) = true
  · rw [hstruct, if_pos h1]
    left
    decide
  · by_cases h2 : ((p.data.take (p.data.length -
        (compNameL p.data).length)) == ['/']) = true
    · rw [hstruct, if_neg h1, if_pos h2]
      left
      decide
    · rw [hstruct, if_neg h1, if_neg h2]
      right
      have hne : ¬ (p.data.take (p.data.length -
          (compNameL p.data).length)) = [] :=
        fun hc => h1 (by rw [hc]; rfl)
      have hlen1 : 1 ≤ (p.data.take (p.data.length -
          (compNameL p.data).length)).length := List.length_pos.mpr hne
      have hlen2 : (p.data.take (p.data.length -
          (compNameL p.data).length)).length ≤ p.data.length := by
        rw [List.length_take]
        omega
      show (List.dropLast _).length < _
      rw [List.length_dropLast]
      omega

theorem mem_chainTo_self (k : Nat) (d : String) : d ∈ chainTo (k + 1) d := by
  unfold chainTo
  by_cases h : (parentDir d == d) = true
  · rw [if_pos h]
    exact List.mem_singleton.mpr rfl
  · rw [if_neg h]
    exact List.mem_cons_self d _

theorem chainTo_cons (k : Nat) (d : String)
    (h : ¬ (parentDir d == d) = true) :
    chainTo (k + 1) d = d :: chainTo k (parentDir d) := by
  show (if parentDir d == d then [d] else d :: chainTo k (parentDir d)) =
    d :: chainTo k (parentDir d)
  rw [if_neg h]

theorem FS.mkdirRec_files (fuel : Nat) (fs fs' : FS) (d : String)
    (h : FS.mkdirRec fuel fs d = Except.ok fs') : fs'.files = fs.files := by
  induction fuel generalizing fs fs' d with
  | zero => simp [FS.mkdirRec] at h
  | succ k ih =>
    unfold FS.mkdirRec at h
    by_cases h1 : fs.hasDir d = true
    · rw [if_pos h1] at h
      injection h with h2
      rw [← h2]
    · rw [if_neg h1] at h
      by_cases h2 : fs.hasFile d = true
      · rw [if_pos h2] at h
        simp at h
      · rw [if_neg h2] at h
        by_cases h3 : (parentDir d == d) = true
        · rw [if_pos h3] at h
          injection h with h4
          rw [← h4]
          exact FS.files_mkdirAt fs d
        · rw [if_neg h3] at h
          cases hrec : FS.mkdirRec k fs (parentDir d) with
          | error m => rw [hrec] at h; simp at h
          | ok fs2 =>
            rw [hrec] at h
            injection h with h4
            rw [← h4]
            rw [FS.files_mkdirAt]
            exact ih fs fs2 (parentDir d) hrec

theorem FS.mkdirRec_dir_mono (fuel : Nat) (fs fs' : FS) (d p : String)
    (h : FS.mkdirRec fuel fs d = Except.ok fs')
    (hp : fs.hasDir p = true) : fs'.hasDir p = true := by
  induction fuel generalizing fs fs' d with
  | zero => simp [FS.mkdirRec] at h
  | succ k ih =>
    unfold FS.mkdirRec at h
    by_cases h1 : fs.hasDir d = true
    · rw [if_pos h1] at h
      injection h with h2
      rw [← h2]
      exact hp
    · rw [if_neg h1] at h
      by_cases h2 : fs.hasFile d = true
      · rw [if_pos h2] at h
        simp at h
      · rw [if_neg h2] at h
        by_cases h3 : (parentDir d == d) = true
        · rw [if_pos h3] at h
          injection h with h4
          rw [← h4]
          exact (FS.hasDir_mkdirAt fs d p).mpr (Or.inl hp)
        · rw [if_neg h3] at h
          cases hrec : FS.mkdirRec k fs (parentDir d) with
          | error m => rw [hrec] at h; simp at h
          | ok fs2 =>
            rw [hrec] at h
            injection h with h4
            rw [← h4]
            exact (FS.hasDir_mkdirAt fs2 d p).mpr
              (Or.inl (ih fs fs2 (parentDir d) hrec hp))

theorem FS.mkdirRec_new_dirs (fuel : Nat) (fs fs' : FS) (d p : String)
    (h : FS.mkdirRec fuel fs d = Except.ok fs')
    (hp : fs'.hasDir p = true) :
    fs.hasDir p = true ∨ p ∈ chainTo fuel d := by
  induction fuel generalizing fs fs' d with
  | zero => simp [FS.mkdirRec] at h
  | succ k ih =>
    unfold FS.mkdirRec at h
    by_cases h1 : fs.hasDir d = true
    · rw [if_pos h1] at h
      injection h with h2
      rw [← h2] at hp
      exact Or.inl hp
    · rw [if_neg h1] at h
      by_cases h2 : fs.hasFile d = true
      · rw [if_pos h2] at h
        simp at h
      · rw [if_neg h2] at h
        by_cases h3 : (parentDir d == d) = true
        · rw [if_pos h3] at h
          injection h with h4
          rw [← h4] at hp
          rcases (FS.hasDir_mkdirAt fs d p).mp hp with h5 | h5
          · exact Or.inl h5
          · refine Or.inr ?_
            unfold chainTo
            rw [if_pos h3]
            exact List.mem_singleton.mpr h5
        · rw [if_neg h3] at h
          cases hrec : FS.mkdirRec k fs (parentDir d) with
          | error m => rw [hrec] at h; simp at h
          | ok fs2 =>
            rw [hrec] at h
            injection h with h4
            rw [← h4] at hp
            rcases (FS.hasDir_mkdirAt fs2 d p).mp hp with h5 | h5
            · rcases ih fs fs2 (parentDir d) hrec h5 with h6 | h6
              · exact Or.inl h6
              · refine Or.inr ?_
                rw [chainTo_cons k d h3]
                exact List.mem_cons_of_mem d h6
            · refine Or.inr ?_
              rw [chainTo_cons k d h3, h5]
              exact List.mem_cons_self d _

theorem FS.mkdirRec_guard (fuel : Nat) (fs fs' : FS) (d p : String)
    (h : FS.mkdirRec fuel fs d = Except.ok fs')
    (hp : fs'.hasDir p = true) :
    fs.hasDir p = true ∨ fs.hasFile p = false := by
  induction fuel generalizing fs fs' d with
  | zero => simp [FS.mkdirRec] at h
  | succ k ih =>
    unfold FS.mkdirRec at h
    by_cases h1 : fs.hasDir d = true
    · rw [if_pos h1] at h
      injection h with h2
      rw [← h2] at hp
      exact Or.inl hp
    · rw [if_neg h1] at h
      by_cases h2 : fs.hasFile d = true
      · rw [if_pos h2] at h
        simp at h
      · rw [if_neg h2] at h
        have h2f : fs.hasFile d = false := by
          cases hb : fs.hasFile d with
          | false => rfl
          | true => exact absurd hb h2
        by_cases h3 : (parentDir d == d) = true
        · rw [if_pos h3] at h
          injection h with h4
          rw [← h4] at hp
          rcases (FS.hasDir_mkdirAt fs d p).mp hp with h5 | h5
          · exact Or.inl h5
          · rw [h5]
            exact Or.inr h2f
        · rw [if_neg h3] at h
          cases hrec : FS.mkdirRec k fs (parentDir d) with
          | error m => rw [hrec] at h; simp at h
          | ok fs2 =>
            rw [hrec] at h
            injection h with h4
            rw [← h4] at hp
            rcases (FS.hasDir_mkdirAt fs2 d p).mp hp with h5 | h5
            · exact ih fs fs2 (parentDir d) hrec h5
            · rw [h5]
              exact Or.inr h2f

theorem FS.mkdirRec_ok_target (k : Nat) (fs fs' : FS) (d : String)
    (h : FS.mkdirRec (k + 1) fs d = Except.ok fs') :
    fs'.hasDir d = true := by
  unfold FS.mkdirRec at h
  by_cases h1 : fs.hasDir d = true
  · rw [if_pos h1] at h
    injection h with h2
    rw [← h2]
    exact h1
  · rw [if_neg h1] at h
    by_cases h2 : fs.hasFile d = true
    · rw [if_pos h2] at h
      simp at h
    · rw [if_neg h2] at h
      by_cases h3 : (parentDir d == d) = true
      · rw [if_pos h3] at h
        injection h with h4
        rw [← h4]
        exact FS.hasDir_mkdirAt_self fs d
      · rw [if_neg h3] at h
        cases hrec : FS.mkdirRec k fs (parentDir d) with
        | error m => rw [hrec] at h; simp at h
        | ok fs2 =>
          rw [hrec] at h
          injection h with h4
          rw [← h4]
          exact FS.hasDir_mkdirAt_self fs2 d

theorem FS.mkdirRec_parent (fuel : Nat) (fs fs' : FS) (d p : String)
    (h : FS.mkdirRec fuel fs d = Except.ok fs')
    (hp : fs'.hasDir p = true) :
    fs.hasDir p = true ∨ fs'.hasDir (parentDir p) = true ∨
      parentDir p = p := by
  induction fuel generalizing fs fs' d with
  | zero => simp [FS.mkdirRec] at h
  | succ k ih =>
    have hkeep := h
    unfold FS.mkdirRec at h
    by_cases h1 : fs.hasDir d = true
    · rw [if_pos h1] at h
      injection h with h2
      rw [← h2] at hp
      exact Or.inl hp
    · rw [if_neg h1] at h
      by_cases h2 : fs.hasFile d = true
      · rw [if_pos h2] at h
        simp at h
      · rw [if_neg h2] at h
        by_cases h3 : (parentDir d == d) = true
        · rw [if_pos h3] at h
          injection h with h4
          rw [← h4] at hp
          rcases (FS.hasDir_mkdirAt fs d p).mp hp with h5 | h5
          · exact Or.inl h5
          · rw [h5]
            exact Or.inr (Or.inr (eq_of_beq h3))
        · rw [if_neg h3] at h
          cases hrec : FS.mkdirRec k fs (parentDir d) with
          | error m => rw [hrec] at h; simp at h
          | ok fs2 =>
            rw [hrec] at h
            injection h with h4
            rw [← h4] at hp
            rcases (FS.hasDir_mkdirAt fs2 d p).mp hp with h5 | h5
            · rcases ih fs fs2 (parentDir d) hrec h5 with h6 | h6 | h6
              · exact Or.inl h6
              · refine Or.inr (Or.inl ?_)
                rw [← h4]
                exact (FS.hasDir_mkdirAt fs2 d (parentDir p)).mpr (Or.inl h6)
              · exact Or.inr (Or.inr h6)
            · refine Or.inr (Or.inl ?_)
              rw [h5, ← h4]
              cases k with
              | zero => simp [FS.mkdirRec] at hrec
              | succ k2 =>
                exact (FS.hasDir_mkdirAt fs2 d (parentDir d)).mpr
                  (Or.inl (FS.mkdirRec_ok_target k2 fs fs2 (parentDir d) hrec))

theorem FS.mkdirRec_ok_of_dir (k : Nat) (fs : FS) (d : String)
    (h : fs.hasDir d = true) :
    FS.mkdirRec (k + 1) fs d = Except.ok fs := by
  unfold FS.mkdirRec
  rw [if_pos h]

theorem FS.mkdirRec_ok_of_clean (fuel : Nat) (fs : FS) (d : String)
    (hclean : ∀ a ∈ chainTo fuel d, fs.hasFile a = false)
    (hfuel : d.data.length + 2 ≤ fuel) :
    ∃ fs', FS.mkdirRec fuel fs d = Except.ok fs' := by
  induction fuel generalizing d with
  | zero => omega
  | succ k ih =>
    unfold FS.mkdirRec
    by_cases h1 : fs.hasDir d = true
    · exact ⟨fs, by rw [if_pos h1]⟩
    · rw [if_neg h1]
      have h2 : fs.hasFile d = false := hclean d (mem_chainTo_self k d)
      rw [if_neg (by simp [h2])]
      by_cases h3 : (parentDir d == d) = true
      · exact ⟨fs.mkdirAt d, by rw [if_pos h3]⟩
      · rw [if_neg h3]
        have hchain : chainTo (k + 1) d = d :: chainTo k (parentDir d) :=
          chainTo_cons k d h3
        rcases parentDir_shrink d with hfix2 | hshort
        · have hk1 : 1 ≤ k := by omega
          obtain ⟨k2, rfl⟩ : ∃ k2, k = k2 + 1 :=
            ⟨k - 1, by omega⟩
          have hqok : ∃ fs2, FS.mkdirRec (k2 + 1) fs (parentDir d) =
              Except.ok fs2 := by
            unfold FS.mkdirRec
            by_cases hq1 : fs.hasDir (parentDir d) = true
            · exact ⟨fs, by rw [if_pos hq1]⟩
            · rw [if_neg hq1]
              have hqmem : parentDir d ∈ chainTo (k2 + 2) d := by
                rw [chainTo_cons (k2 + 1) d h3]
                refine List.mem_cons_of_mem d ?_
                exact mem_chainTo_self k2 (parentDir d)
              have hq2 : fs.hasFile (parentDir d) = false := hclean _ hqmem
              rw [if_neg (by simp [hq2])]
              rw [if_pos (beq_iff_eq.mpr hfix2)]
              exact ⟨fs.mkdirAt (parentDir d), rfl⟩
          obtain ⟨fs2, hrec⟩ := hqok
          exact ⟨fs2.mkdirAt d, by rw [hrec]⟩
        · have hclean2 : ∀ a ∈ chainTo k (parentDir d),
              fs.hasFile a = false := by
            intro a ha
            refine hclean a ?_
            rw [hchain]
            exact List.mem_cons_of_mem d ha
          have hfuel2 : (parentDir d).data.length + 2 ≤ k := by omega
          obtain ⟨fs2, hrec⟩ := ih (parentDir d) hclean2 hfuel2
          exact ⟨fs2.mkdirAt d, by rw [hrec]⟩

theorem FS.mkdirRec_blocked (k : Nat) (fs : FS) (d : String)
    (hd : fs.hasDir d = false) (hf : fs.hasFile d = true) :
    FS.mkdirRec (k + 1) fs d = Except.error ("File exists: " ++ d) := by
  unfold FS.mkdirRec
  rw [if_neg (by simp [hd]), if_pos hf]

theorem FS.mkdirRec_error_persist (fuel : Nat) (fsA fsB : FS) (d : String)
    (hfile : ∀ p, fsA.hasFile p = true → fsB.hasFile p = true)
    (hP1 : ∀ p, fsB.hasDir p = true →
      fsA.hasDir p = true ∨ fsA.hasFile p = false)
    (hP2 : ∀ p, fsB.hasDir p = true →
      fsA.hasDir p = true ∨ fsB.hasDir (parentDir p) = true ∨
        parentDir p = p)
    (hfuel : d.data.length + 2 ≤ fuel) (m : String)
    (herr : FS.mkdirRec fuel fsA d = Except.error m) :
    ∃ m2, FS.mkdirRec fuel fsB d = Except.error m2 := by
  induction fuel generalizing d m with
  | zero => omega
  | succ k ih =>
    unfold FS.mkdirRec at herr ⊢
    by_cases h1 : fsA.hasDir d = true
    · rw [if_pos h1] at herr
      simp at herr
    · rw [if_neg h1] at herr
      by_cases h2 : fsA.hasFile d = true
      · -- blocked at the target itself: still blocked in fsB
        have hBf : fsB.hasFile d = true := hfile d h2
        have hBd : fsB.hasDir d = false := by
          cases hb : fsB.hasDir d with
          | false => rfl
          | true =>
            rcases hP1 d hb with hc | hc
            · exact absurd hc h1
            · rw [h2] at hc
              exact absurd hc (by simp)
        rw [if_neg (by simp [hBd]), if_pos hBf]
        exact ⟨_, rfl⟩
      · rw [if_neg h2] at herr
        by_cases h3 : (parentDir d == d) = true
        · rw [if_pos h3] at herr
          simp at herr
        · rw [if_neg h3] at herr
          cases hrecA : FS.mkdirRec k fsA (parentDir d) with
          | ok fs2 => rw [hrecA] at herr; simp at herr
          | error mA =>
            rw [hrecA] at herr
            have hk1 : 1 ≤ k := by omega
            obtain ⟨k2, rfl⟩ : ∃ k2, k = k2 + 1 := ⟨k - 1, by omega⟩
            -- the recursive call on the parent also fails from fsB
            have hrecB : ∃ m2, FS.mkdirRec (k2 + 1) fsB (parentDir d) =
                Except.error m2 := by
              rcases parentDir_shrink d with hfix2 | hshort
              · -- the parent is its own parent: the A-side failure can
                -- only be a blocking file there, which persists
                have hqA : fsA.hasFile (parentDir d) = true ∧
                    fsA.hasDir (parentDir d) = false := by
                  unfold FS.mkdirRec at hrecA
                  by_cases hq1 : fsA.hasDir (parentDir d) = true
                  · rw [if_pos hq1] at hrecA
                    simp at hrecA
                  · rw [if_neg hq1] at hrecA
                    by_cases hq2 : fsA.hasFile (parentDir d) = true
                    · refine ⟨hq2, ?_⟩
                      cases hb : fsA.hasDir (parentDir d) with
                      | false => rfl
                      | true => exact absurd hb hq1
                    · rw [if_neg hq2,
                        if_pos (beq_iff_eq.mpr hfix2)] at hrecA
                      simp at hrecA
                have hqBf : fsB.hasFile (parentDir d) = true :=
                  hfile _ hqA.1
                have hqBd : fsB.hasDir (parentDir d) = false := by
                  cases hb : fsB.hasDir (parentDir d) with
                  | false => rfl
                  | true =>
                    rcases hP1 _ hb with hc | hc
                    · rw [hqA.2] at hc
                      exact absurd hc (by simp)
                    · rw [hqA.1] at hc
                      exact absurd hc (by simp)
                exact ⟨_, FS.mkdirRec_blocked k2 fsB (parentDir d)
                  hqBd hqBf⟩
              · exact ih (parentDir d) (by omega) mA hrecA
            obtain ⟨m2, hrecB⟩ := hrecB
            have hBd : fsB.hasDir d = false := by
              cases hb : fsB.hasDir d with
              | false => rfl
              | true =>
                rcases hP2 d hb with hc | hc | hc
                · exact absurd hc h1
                · -- the parent would be a directory in fsB, so the
                  -- recursive call could not fail
                  rw [FS.mkdirRec_ok_of_dir k2 fsB (parentDir d) hc]
                    at hrecB
                  simp at hrecB
                · exact absurd hc (by simpa using h3)
            rw [if_neg (by simp [hBd])]
            by_cases hBf : fsB.hasFile d = true
            · rw [if_pos hBf]
              exact ⟨_, rfl⟩
            · rw [if_neg hBf, if_neg h3, hrecB]
              exact ⟨m2, rfl⟩

theorem FS.mkdirParents_files (fs fs' : FS) (d : String)
    (h : fs.mkdirParents d = Except.ok fs') : fs'.files = fs.files :=
  FS.mkdirRec_files _ fs fs' d h

theorem FS.mkdirParents_dir_mono (fs fs' : FS) (d p : String)
    (h : fs.mkdirParents d = Except.ok fs') (hp : fs.hasDir p = true) :
    fs'.hasDir p = true :=
  FS.mkdirRec_dir_mono _ fs fs' d p h hp

theorem FS.mkdirParents_new_dirs (fs fs' : FS) (d p : String)
    (h : fs.mkdirParents d = Except.ok fs') (hp : fs'.hasDir p = true) :
    fs.hasDir p = true ∨ p ∈ chainTo (d.data.length + 2) d :=
  FS.mkdirRec_new_dirs _ fs fs' d p h hp

theorem FS.mkdirParents_guard (fs fs' : FS) (d p : String)
    (h : fs.mkdirParents d = Except.ok fs') (hp : fs'.hasDir p = true) :
    fs.hasDir p = true ∨ fs.hasFile p = false :=
  FS.mkdirRec_guard _ fs fs' d p h hp

theorem FS.mkdirParents_parent (fs fs' : FS) (d p : String)
    (h : fs.mkdirParents d = Except.ok fs') (hp : fs'.hasDir p = true) :
    fs.hasDir p = true ∨ fs'.hasDir (parentDir p) = true ∨
      parentDir p = p :=
  FS.mkdirRec_parent _ fs fs' d p h hp

theorem FS.mkdirParents_ok_target (fs fs' : FS) (d : String)
    (h : fs.mkdirParents d = Except.ok fs') : fs'.hasDir d = true :=
  FS.mkdirRec_ok_target (d.data.length + 1) fs fs' d h

theorem FS.mkdirParents_ok_of_dir (fs : FS) (d : String)
    (h : fs.hasDir d = true) : fs.mkdirParents d = Except.ok fs :=
  FS.mkdirRec_ok_of_dir (d.data.length + 1) fs d h

theorem FS.mkdirParents_ok_of_clean (fs : FS) (d : String)
    (hclean : ∀ a ∈ chainTo (d.data.length + 2) d, fs.hasFile a = false) :
    ∃ fs', fs.mkdirParents d = Except.ok fs' :=
  FS.mkdirRec_ok_of_clean _ fs d hclean (le_refl _)

theorem FS.mkdirParents_error_persist (fsA fsB : FS) (d : String)
    (hfile : ∀ p, fsA.hasFile p = true → fsB.hasFile p = true)
    (hP1 : ∀ p, fsB.hasDir p = true →
      fsA.hasDir p = true ∨ fsA.hasFile p = false)
    (hP2 : ∀ p, fsB.hasDir p = true →
      fsA.hasDir p = true ∨ fsB.hasDir (parentDir p) = true ∨
        parentDir p = p)
    (m : String) (herr : fsA.mkdirParents d = Except.error m) :
    ∃ m2, fsB.mkdirParents d = Except.error m2 :=
  FS.mkdirRec_error_persist _ fsA fsB d hfile hP1 hP2 (le_refl _) m herr

theorem FS.hasFile_congr_files (fs fs' : FS) (h : fs'.files = fs.files)
    (p : String) : fs'.hasFile p = fs.hasFile p := by
  unfold FS.hasFile
  rw [h]

/-! ### Characterizations of the sink loop and of `runMain` -/

theorem runSink_nil (c : Collab) (ccd : String) (st : SinkState) :
    runSink c ccd st [] = st := rfl

theorem runSink_cons (c : Collab) (ccd : String) (st : SinkState)
    (w : String × Bytes) (I : List (String × Bytes)) :
    runSink c ccd st (w :: I) = runSink c ccd (applyOutcome c ccd st w) I := rfl

theorem runSink_append (c : Collab) (ccd : String) (st : SinkState)
    (l1 l2 : List (String × Bytes)) :
    runSink c ccd st (l1 ++ l2) =
      runSink c ccd (runSink c ccd st l1) l2 := by
  unfold runSink
  rw [List.foldl_append]

theorem bool_eq_of_iff {a b : Bool} (h : a = true ↔ b = true) : a = b := by
  cases a <;> cases b <;> simp_all

theorem applyOutcome_file_mono (c : Collab) (ccd : String) (st : SinkState)
    (v : String × Bytes) (p : String) (h : st.fs.hasFile p = true) :
    (applyOutcome c ccd st v).fs.hasFile p = true := by
  rcases applyOutcome_cases c ccd st v with ⟨_, he⟩ | ⟨m, _, _, he⟩ |
    ⟨fs2, m, _, hm, _, _, he⟩ | ⟨fs2, _, hm, _, he⟩
  · rw [he]; exact h
  · rw [he]; exact h
  · rw [he]
    show fs2.hasFile p = true
    rw [FS.hasFile_congr_files st.fs fs2 (FS.mkdirParents_files _ _ _ hm) p]
    exact h
  · rw [he]
    show (fs2.writeFile _ _).hasFile p = true
    refine (FS.hasFile_writeFile fs2 _ _ p).mpr (Or.inl ?_)
    rw [FS.hasFile_congr_files st.fs fs2 (FS.mkdirParents_files _ _ _ hm) p]
    exact h

theorem applyOutcome_dir_mono (c : Collab) (ccd : String) (st : SinkState)
    (v : String × Bytes) (p : String) (h : st.fs.hasDir p = true) :
    (applyOutcome c ccd st v).fs.hasDir p = true := by
  rcases applyOutcome_cases c ccd st v with ⟨_, he⟩ | ⟨m, _, _, he⟩ |
    ⟨fs2, m, _, hm, _, _, he⟩ | ⟨fs2, _, hm, _, he⟩
  · rw [he]; exact h
  · rw [he]; exact h
  · rw [he]
    exact FS.mkdirParents_dir_mono _ _ _ _ hm h
  · rw [he]
    show (fs2.writeFile _ _).hasDir p = true
    rw [FS.hasDir_writeFile]
    exact FS.mkdirParents_dir_mono _ _ _ _ hm h

theorem applyOutcome_P1 (c : Collab) (ccd : String) (st : SinkState)
    (v : String × Bytes) (p : String)
    (h : (applyOutcome c ccd st v).fs.hasDir p = true) :
    st.fs.hasDir p = true ∨ st.fs.hasFile p = false := by
  rcases applyOutcome_cases c ccd st v with ⟨_, he⟩ | ⟨m, _, _, he⟩ |
    ⟨fs2, m, _, hm, _, _, he⟩ | ⟨fs2, _, hm, _, he⟩
  · rw [he] at h; exact Or.inl h
  · rw [he] at h; exact Or.inl h
  · rw [he] at h
    exact FS.mkdirParents_guard _ _ _ _ hm h
  · rw [he] at h
    rw [show ({ fs := fs2.writeFile (destSink ccd v.1) (srcOf c v), errors := st.errors } : SinkState).fs = fs2.writeFile (destSink ccd v.1) (srcOf c v) from rfl, FS.hasDir_writeFile] at h
    exact FS.mkdirParents_guard _ _ _ _ hm h

theorem applyOutcome_P2 (c : Collab) (ccd : String) (st : SinkState)
    (v : String × Bytes) (p : String)
    (h : (applyOutcome c ccd st v).fs.hasDir p = true) :
    st.fs.hasDir p = true ∨
      (applyOutcome c ccd st v).fs.hasDir (parentDir p) = true ∨
      parentDir p = p := by
  rcases applyOutcome_cases c ccd st v with ⟨_, he⟩ | ⟨m, _, _, he⟩ |
    ⟨fs2, m, _, hm, _, _, he⟩ | ⟨fs2, _, hm, _, he⟩
  · rw [he] at h ⊢; exact Or.inl h
  · rw [he] at h ⊢; exact Or.inl h
  · rw [he] at h ⊢
    exact FS.mkdirParents_parent _ _ _ _ hm h
  · rw [he] at h ⊢
    rw [show ({ fs := fs2.writeFile (destSink ccd v.1) (srcOf c v), errors := st.errors } : SinkState).fs = fs2.writeFile (destSink ccd v.1) (srcOf c v) from rfl, FS.hasDir_writeFile] at h
    rcases FS.mkdirParents_parent _ _ _ _ hm h with h1 | h1 | h1
    · exact Or.inl h1
    · refine Or.inr (Or.inl ?_)
      show (fs2.writeFile _ _).hasDir (parentDir p) = true
      rw [FS.hasDir_writeFile]
      exact h1
    · exact Or.inr (Or.inr h1)

theorem applyOutcome_hasFile_other (c : Collab) (ccd : String)
    (st : SinkState) (v : String × Bytes) (p : String)
    (hne : ¬ p = destSink ccd v.1) :
    (applyOutcome c ccd st v).fs.hasFile p = st.fs.hasFile p := by
  rcases applyOutcome_cases c ccd st v with ⟨_, he⟩ | ⟨m, _, _, he⟩ |
    ⟨fs2, m, _, hm, _, _, he⟩ | ⟨fs2, _, hm, _, he⟩
  · rw [he]
  · rw [he]
  · rw [he]
    exact FS.hasFile_congr_files st.fs fs2
      (FS.mkdirParents_files _ _ _ hm) p
  · rw [he]
    show (fs2.writeFile _ _).hasFile p = st.fs.hasFile p
    refine bool_eq_of_iff ?_
    rw [FS.hasFile_writeFile]
    rw [FS.hasFile_congr_files st.fs fs2 (FS.mkdirParents_files _ _ _ hm) p]
    constructor
    · rintro (h1 | h1)
      · exact h1
      · exact absurd h1 hne
    · exact Or.inl

theorem applyOutcome_lookup_other (c : Collab) (ccd : String)
    (st : SinkState) (v : String × Bytes) (k : String) (hne : ¬ k = v.1) :
    assocLookup (applyOutcome c ccd st v).errors k =
      assocLookup st.errors k := by
  rcases applyOutcome_cases c ccd st v with ⟨_, he⟩ | ⟨m, _, _, he⟩ |
    ⟨fs2, m, _, hm, _, _, he⟩ | ⟨fs2, _, hm, _, he⟩
  · rw [he]
    show assocLookup (dictInsert st.errors v.1 _) k = _
    rw [assocLookup_dictInsert, if_neg hne]
  · rw [he]
    show assocLookup (dictInsert st.errors v.1 _) k = _
    rw [assocLookup_dictInsert, if_neg hne]
  · rw [he]
    show assocLookup (dictInsert st.errors v.1 _) k = _
    rw [assocLookup_dictInsert, if_neg hne]
  · rw [he]

theorem applyOutcome_key_mono (c : Collab) (ccd : String) (st : SinkState)
    (v : String × Bytes) (k : String)
    (h : ¬ assocLookup st.errors k = none) :
    ¬ assocLookup (applyOutcome c ccd st v).errors k = none := by
  by_cases hk : k = v.1
  · rcases applyOutcome_cases c ccd st v with ⟨_, he⟩ | ⟨m, _, _, he⟩ |
      ⟨fs2, m, _, hm, _, _, he⟩ | ⟨fs2, _, hm, _, he⟩ <;> rw [he]
    · show ¬ assocLookup (dictInsert st.errors v.1 _) k = none
      rw [assocLookup_dictInsert, if_pos hk]
      simp
    · show ¬ assocLookup (dictInsert st.errors v.1 _) k = none
      rw [assocLookup_dictInsert, if_pos hk]
      simp
    · show ¬ assocLookup (dictInsert st.errors v.1 _) k = none
      rw [assocLookup_dictInsert, if_pos hk]
      simp
    · exact h
  · rw [applyOutcome_lookup_other c ccd st v k hk]
    exact h

theorem runSink_file_mono (c : Collab) (ccd : String)
    (I : List (String × Bytes)) (st : SinkState) (p : String)
    (h : st.fs.hasFile p = true) :
    (runSink c ccd st I).fs.hasFile p = true := by
  induction I generalizing st with
  | nil => exact h
  | cons v I ih =>
    rw [runSink_cons]
    exact ih _ (applyOutcome_file_mono c ccd st v p h)

theorem runSink_dir_mono (c : Collab) (ccd : String)
    (I : List (String × Bytes)) (st : SinkState) (p : String)
    (h : st.fs.hasDir p = true) :
    (runSink c ccd st I).fs.hasDir p = true := by
  induction I generalizing st with
  | nil => exact h
  | cons v I ih =>
    rw [runSink_cons]
    exact ih _ (applyOutcome_dir_mono c ccd st v p h)

/-- The sink under a clean layout: no destination has a regular file on
its parent-directory chain, no destination already is a directory, and no
destination lies on another destination's chain.  Then every
adapter-success writes, every adapter-failure records, created
directories stay inside the chains, and the error map is exactly the
adapter-failure map — the deterministic behavior the order-invariance and
idempotence claims are about. -/
theorem runSink_clean (c : Collab) (ccd : String) (R : String → Bytes)
    (I : List (String × Bytes)) (st : SinkState)
    (hR : ∀ w ∈ I, w.2 = R w.1)
    (hA : ∀ w ∈ I, ∀ a ∈ ancestorsOf (destSink ccd w.1),
      st.fs.hasFile a = false)
    (hB : ∀ w ∈ I, st.fs.hasDir (destSink ccd w.1) = false)
    (hC : ∀ w ∈ I, ∀ v ∈ I,
      ¬ destSink ccd w.1 ∈ ancestorsOf (destSink ccd v.1)) :
    (∀ p, ((runSink c ccd st I).fs.hasFile p = true ↔
      (st.fs.hasFile p = true ∨
        ∃ w ∈ I, errOf c w = "" ∧ destSink ccd w.1 = p))) ∧
    (∀ p, (∀ w ∈ I, ¬ p ∈ ancestorsOf (destSink ccd w.1)) →
      (runSink c ccd st I).fs.hasDir p = st.fs.hasDir p) ∧
    (∀ k, assocLookup (runSink c ccd st I).errors k =
      (if ∃ w ∈ I, w.1 = k ∧ ¬ errOf c w = ""
       then some (errOf c (k, R k)) else assocLookup st.errors k)) ∧
    ((runSink c ccd st I).errors = [] ↔
      (st.errors = [] ∧ ∀ w ∈ I, errOf c w = "")) := by
  induction I generalizing st with
  | nil =>
    refine ⟨fun p => by simp [runSink_nil], fun p _ => by rw [runSink_nil],
      fun k => by simp [runSink_nil], by simp [runSink_nil]⟩
  | cons w I ih =>
    rw [runSink_cons]
    by_cases hw : errOf c w = ""
    · -- success: mkdir and write both go through
      have hAw := hA w (List.mem_cons_self w I)
      have hBw := hB w (List.mem_cons_self w I)
      obtain ⟨fs2, hm⟩ := FS.mkdirParents_ok_of_clean st.fs
        (parentDir (destSink ccd w.1)) (fun a ha => hAw a ha)
      have hd2 : fs2.hasDir (destSink ccd w.1) = false := by
        cases hbd : fs2.hasDir (destSink ccd w.1) with
        | false => rfl
        | true =>
          rcases FS.mkdirParents_new_dirs _ _ _ _ hm hbd with h1 | h1
          · rw [hBw] at h1
            exact absurd h1 (by simp)
          · exact absurd h1
              (hC w (List.mem_cons_self w I) w (List.mem_cons_self w I))
      have happ : applyOutcome c ccd st w =
          { fs := fs2.writeFile (destSink ccd w.1) (srcOf c w),
            errors := st.errors } :=
        applyOutcome_write_ok c ccd st w fs2 _ hw hm
          (by unfold FS.writeText; rw [if_neg (by simp [hd2])])
      rw [happ]
      have hfs2files : ∀ p, fs2.hasFile p = st.fs.hasFile p :=
        FS.hasFile_congr_files st.fs fs2 (FS.mkdirParents_files _ _ _ hm)
      have hfile2 : ∀ p,
          (fs2.writeFile (destSink ccd w.1) (srcOf c w)).hasFile p = true ↔
          (st.fs.hasFile p = true ∨ p = destSink ccd w.1) := by
        intro p
        rw [FS.hasFile_writeFile, hfs2files]
      have hdir2a : ∀ p,
          (fs2.writeFile (destSink ccd w.1) (srcOf c w)).hasDir p = true →
          st.fs.hasDir p = true ∨
            p ∈ ancestorsOf (destSink ccd w.1) := by
        intro p hp
        rw [FS.hasDir_writeFile] at hp
        exact FS.mkdirParents_new_dirs _ _ _ _ hm hp
      have hdir2b : ∀ p, st.fs.hasDir p = true →
          (fs2.writeFile (destSink ccd w.1) (srcOf c w)).hasDir p = true := by
        intro p hp
        rw [FS.hasDir_writeFile]
        exact FS.mkdirParents_dir_mono _ _ _ _ hm hp
      have hA2 : ∀ v ∈ I, ∀ a ∈ ancestorsOf (destSink ccd v.1),
          ({ fs := fs2.writeFile (destSink ccd w.1) (srcOf c w), errors := st.errors } : SinkState).fs.hasFile a = false := by
        intro v hv a ha
        cases hb : (fs2.writeFile (destSink ccd w.1)
            (srcOf c w)).hasFile a with
        | false => rfl
        | true =>
          rcases (hfile2 a).mp hb with h1 | h1
          · rw [hA v (List.mem_cons_of_mem w hv) a ha] at h1
            exact absurd h1 (by simp)
          · rw [h1] at ha
            exact absurd ha
              (hC w (List.mem_cons_self w I) v (List.mem_cons_of_mem w hv))
      have hB2 : ∀ v ∈ I,
          ({ fs := fs2.writeFile (destSink ccd w.1) (srcOf c w), errors := st.errors } : SinkState).fs.hasDir (destSink ccd v.1) = false := by
        intro v hv
        cases hb : (fs2.writeFile (destSink ccd w.1)
            (srcOf c w)).hasDir (destSink ccd v.1) with
        | false => rfl
        | true =>
          rcases hdir2a _ hb with h1 | h1
          · rw [hB v (List.mem_cons_of_mem w hv)] at h1
            exact absurd h1 (by simp)
          · exact absurd h1
              (hC v (List.mem_cons_of_mem w hv) w (List.mem_cons_self w I))
      rcases ih _ (fun v hv => hR v (List.mem_cons_of_mem w hv)) hA2 hB2
        (fun v hv u hu => hC v (List.mem_cons_of_mem w hv) u
          (List.mem_cons_of_mem w hu)) with ⟨ih1, ih2, ih3, ih4⟩
      refine ⟨?_, ?_, ?_, ?_⟩
      · intro p
        rw [ih1 p]
        show (fs2.writeFile _ _).hasFile p = true ∨ _ ↔ _
        rw [hfile2 p]
        constructor
        · rintro ((h1 | h1) | ⟨v, hv, hve, hvd⟩)
          · exact Or.inl h1
          · exact Or.inr ⟨w, List.mem_cons_self w I, hw, h1.symm⟩
          · exact Or.inr ⟨v, List.mem_cons_of_mem w hv, hve, hvd⟩
        · rintro (h1 | ⟨v, hv, hve, hvd⟩)
          · exact Or.inl (Or.inl h1)
          · rcases List.mem_cons.mp hv with rfl | hvI
            · exact Or.inl (Or.inr hvd.symm)
            · exact Or.inr ⟨v, hvI, hve, hvd⟩
      · intro p hstable
        rw [ih2 p (fun v hv => hstable v (List.mem_cons_of_mem w hv))]
        refine bool_eq_of_iff ⟨?_, ?_⟩
        · intro h1
          rcases hdir2a p h1 with h2 | h2
          · exact h2
          · exact absurd h2 (hstable w (List.mem_cons_self w I))
        · exact hdir2b p
      · intro k
        rw [ih3 k]
        show (if _ then _ else assocLookup st.errors k) = _
        by_cases hEI : ∃ v ∈ I, v.1 = k ∧ ¬ errOf c v = ""
        · rw [if_pos hEI, if_pos (by
            rcases hEI with ⟨v, hv, hrest⟩
            exact ⟨v, List.mem_cons_of_mem w hv, hrest⟩)]
        · rw [if_neg hEI, if_neg (by
            rintro ⟨v, hv, hvk, hve⟩
            rcases List.mem_cons.mp hv with rfl | hvI
            · exact hve hw
            · exact hEI ⟨v, hvI, hvk, hve⟩)]
      · rw [ih4]
        show st.errors = [] ∧ _ ↔ _
        constructor
        · rintro ⟨h1, h2⟩
          refine ⟨h1, fun v hv => ?_⟩
          rcases List.mem_cons.mp hv with rfl | hvI
          · exact hw
          · exact h2 v hvI
        · rintro ⟨h1, h2⟩
          exact ⟨h1, fun v hv => h2 v (List.mem_cons_of_mem w hv)⟩
    · -- adapter failure: the filesystem is untouched
      rw [applyOutcome_fail c ccd st w hw]
      rcases ih { st with errors := dictInsert st.errors w.1 (errOf c w) }
        (fun v hv => hR v (List.mem_cons_of_mem w hv))
        (fun v hv => hA v (List.mem_cons_of_mem w hv))
        (fun v hv => hB v (List.mem_cons_of_mem w hv))
        (fun v hv u hu => hC v (List.mem_cons_of_mem w hv) u
          (List.mem_cons_of_mem w hu)) with ⟨ih1, ih2, ih3, ih4⟩
      refine ⟨?_, ?_, ?_, ?_⟩
      · intro p
        rw [ih1 p]
        show st.fs.hasFile p = true ∨ _ ↔ _
        constructor
        · rintro (h1 | ⟨v, hv, hve, hvd⟩)
          · exact Or.inl h1
          · exact Or.inr ⟨v, List.mem_cons_of_mem w hv, hve, hvd⟩
        · rintro (h1 | ⟨v, hv, hve, hvd⟩)
          · exact Or.inl h1
          · rcases List.mem_cons.mp hv with rfl | hvI
            · exact absurd hve hw
            · exact Or.inr ⟨v, hvI, hve, hvd⟩
      · intro p hstable
        exact ih2 p (fun v hv => hstable v (List.mem_cons_of_mem w hv))
      · intro k
        rw [ih3 k]
        show (if _ then _
          else assocLookup (dictInsert st.errors w.1 (errOf c w)) k) = _
        by_cases hEI : ∃ v ∈ I, v.1 = k ∧ ¬ errOf c v = ""
        · rw [if_pos hEI, if_pos (by
            rcases hEI with ⟨v, hv, hrest⟩
            exact ⟨v, List.mem_cons_of_mem w hv, hrest⟩)]
        · rw [if_neg hEI, assocLookup_dictInsert]
          by_cases hk : k = w.1
          · rw [if_pos hk, if_pos ⟨w, List.mem_cons_self w I,
              hk.symm, hw⟩]
            have hw2 : w = (k, R k) := by
              obtain ⟨a, b⟩ := w
              simp only at hk ⊢
              have hb : b = R a := hR (a, b) (List.mem_cons_self _ _)
              rw [hb, hk]
            rw [hw2]
          · rw [if_neg hk, if_neg (by
              rintro ⟨v, hv, hvk, hve⟩
              rcases List.mem_cons.mp hv with rfl | hvI
              · exact hk hvk.symm
              · exact hEI ⟨v, hvI, hvk, hve⟩)]
      · rw [ih4]
        show dictInsert st.errors w.1 (errOf c w) = [] ∧ _ ↔ _
        constructor
        · rintro ⟨h1, _⟩
          exact absurd h1 (dictInsert_ne_nil _ _ _)
        · rintro ⟨_, h2⟩
          exact absurd (h2 w (List.mem_cons_self w I)) hw

/-! ### The per-item exactly-one invariant (claim C1) -/

/-- Tri-state invariant for one work-item name `n` with payload `b` and
destination `destSink ccd n`: either the item has not been processed yet
(no file, no error key), or it succeeded (file present, destination not a
directory, parent directory in place, no error key), or it failed (error
key present, no file, and a persistent reason: a failing adapter, a
directory squatting on the destination, or a currently-failing mkdir). -/
def TriState (c : Collab) (ccd : String) (n : String) (b : Bytes)
    (st : SinkState) : Prop :=
  (assocLookup st.errors n = none ∧
    st.fs.hasFile (destSink ccd n) = false)
  ∨ (errOf c (n, b) = "" ∧ assocLookup st.errors n = none ∧
    st.fs.hasFile (destSink ccd n) = true ∧
    st.fs.hasDir (destSink ccd n) = false ∧
    st.fs.hasDir (parentDir (destSink ccd n)) = true)
  ∨ ((∃ m, assocLookup st.errors n = some m) ∧
    st.fs.hasFile (destSink ccd n) = false ∧
    (¬ errOf c (n, b) = "" ∨ st.fs.hasDir (destSink ccd n) = true ∨
      ∃ m2, st.fs.mkdirParents (parentDir (destSink ccd n)) =
        Except.error m2))

theorem TriState_step (c : Collab) (ccd : String) (n : String) (b : Bytes)
    (st : SinkState) (v : String × Bytes)
    (hv1 : v.1 = n → v = (n, b))
    (hv2 : destSink ccd v.1 = destSink ccd n → v.1 = n)
    (h : TriState c ccd n b st) :
    TriState c ccd n b (applyOutcome c ccd st v) := by
  by_cases hvn : v.1 = n
  · -- a (duplicate) attempt of the tracked item itself
    have hveq : v = (n, b) := hv1 hvn
    subst hveq
    rcases h with ⟨hk, hf⟩ | ⟨he, hk, hf, hd, hp⟩ | ⟨⟨m0, hk⟩, hf, hbl⟩
    · -- untouched
      rcases applyOutcome_cases c ccd st (n, b) with ⟨he, happ⟩ |
        ⟨m, he, hm, happ⟩ | ⟨fs2, m, he, hm, hd2, _, happ⟩ |
        ⟨fs2, he, hm, hd2, happ⟩
      · refine Or.inr (Or.inr ⟨⟨errOf c (n, b), ?_⟩,
          by rw [happ]; exact hf, Or.inl he⟩)
        rw [happ]
        show assocLookup (dictInsert st.errors (n, b).1 _) n = _
        rw [assocLookup_dictInsert, if_pos rfl]
      · refine Or.inr (Or.inr ⟨⟨m, ?_⟩, by rw [happ]; exact hf,
          Or.inr (Or.inr ⟨m, by rw [happ]; exact hm⟩)⟩)
        rw [happ]
        show assocLookup (dictInsert st.errors (n, b).1 _) n = _
        rw [assocLookup_dictInsert, if_pos rfl]
      · refine Or.inr (Or.inr ⟨⟨m, ?_⟩, ?_, Or.inr (Or.inl ?_)⟩)
        · rw [happ]
          show assocLookup (dictInsert st.errors (n, b).1 _) n = _
          rw [assocLookup_dictInsert, if_pos rfl]
        · rw [happ]
          show fs2.hasFile (destSink ccd n) = false
          rw [FS.hasFile_congr_files st.fs fs2
            (FS.mkdirParents_files _ _ _ hm)]
          exact hf
        · rw [happ]
          exact hd2
      · refine Or.inr (Or.inl ⟨he, ?_, ?_, ?_, ?_⟩)
        · rw [happ]
          exact hk
        · rw [happ]
          show (fs2.writeFile (destSink ccd (n, b).1) _).hasFile
            (destSink ccd n) = true
          exact (FS.hasFile_writeFile _ _ _ _).mpr (Or.inr rfl)
        · rw [happ]
          show (fs2.writeFile _ _).hasDir (destSink ccd n) = false
          rw [FS.hasDir_writeFile]
          exact hd2
        · rw [happ]
          show (fs2.writeFile _ _).hasDir
            (parentDir (destSink ccd n)) = true
          rw [FS.hasDir_writeFile]
          exact FS.mkdirParents_ok_target _ _ _ hm
    · -- already succeeded: the attempt succeeds again (overwrite)
      have hmok : st.fs.mkdirParents (parentDir (destSink ccd n)) =
          Except.ok st.fs := FS.mkdirParents_ok_of_dir st.fs _ hp
      rcases applyOutcome_cases c ccd st (n, b) with ⟨he2, happ⟩ |
        ⟨m, he2, hm, happ⟩ | ⟨fs2, m, he2, hm, hd2, _, happ⟩ |
        ⟨fs2, he2, hm, hd2, happ⟩
      · exact absurd he he2
      · rw [show destSink ccd (n, b).1 = destSink ccd n from rfl] at hm
        rw [hmok] at hm
        simp at hm
      · rw [show destSink ccd (n, b).1 = destSink ccd n from rfl] at hm hd2
        rw [hmok] at hm
        injection hm with hm2
        rw [← hm2] at hd2
        rw [hd2] at hd
        exact absurd hd (by simp)
      · rw [show destSink ccd (n, b).1 = destSink ccd n from rfl] at hm hd2
        rw [hmok] at hm
        injection hm with hm2
        refine Or.inr (Or.inl ⟨he, ?_, ?_, ?_, ?_⟩)
        · rw [happ]
          exact hk
        · rw [happ]
          show (fs2.writeFile (destSink ccd (n, b).1) _).hasFile
            (destSink ccd n) = true
          exact (FS.hasFile_writeFile _ _ _ _).mpr (Or.inr rfl)
        · rw [happ]
          show (fs2.writeFile _ _).hasDir (destSink ccd n) = false
          rw [FS.hasDir_writeFile, ← hm2]
          exact hd
        · rw [happ]
          show (fs2.writeFile _ _).hasDir
            (parentDir (destSink ccd n)) = true
          rw [FS.hasDir_writeFile, ← hm2]
          exact hp
    · -- already failed: the attempt fails again
      rcases applyOutcome_cases c ccd st (n, b) with ⟨he2, happ⟩ |
        ⟨m, he2, hm, happ⟩ | ⟨fs2, m, he2, hm, hd2, _, happ⟩ |
        ⟨fs2, he2, hm, hd2, happ⟩
      · refine Or.inr (Or.inr ⟨⟨errOf c (n, b), ?_⟩,
          by rw [happ]; exact hf, ?_⟩)
        · rw [happ]
          show assocLookup (dictInsert st.errors (n, b).1 _) n = _
          rw [assocLookup_dictInsert, if_pos rfl]
        · rw [happ]
          exact hbl
      · refine Or.inr (Or.inr ⟨⟨m, ?_⟩, by rw [happ]; exact hf,
          Or.inr (Or.inr ⟨m, by rw [happ]; exact hm⟩)⟩)
        rw [happ]
        show assocLookup (dictInsert st.errors (n, b).1 _) n = _
        rw [assocLookup_dictInsert, if_pos rfl]
      · refine Or.inr (Or.inr ⟨⟨m, ?_⟩, ?_, Or.inr (Or.inl ?_)⟩)
        · rw [happ]
          show assocLookup (dictInsert st.errors (n, b).1 _) n = _
          rw [assocLookup_dictInsert, if_pos rfl]
        · rw [happ]
          show fs2.hasFile (destSink ccd n) = false
          rw [FS.hasFile_congr_files st.fs fs2
            (FS.mkdirParents_files _ _ _ hm)]
          exact hf
        · rw [happ]
          exact hd2
      · -- a successful write is impossible in the failed state
        exfalso
        rw [show destSink ccd (n, b).1 = destSink ccd n from rfl] at hm hd2
        rcases hbl with hb1 | hb1 | ⟨m2, hb1⟩
        · exact hb1 he2
        · have := FS.mkdirParents_dir_mono _ _ _ _ hm hb1
          rw [this] at hd2
          exact absurd hd2 (by simp)
        · rw [hb1] at hm
          simp at hm
  · -- an unrelated item: the tracked name's state is undisturbed
    have hfileeq : (applyOutcome c ccd st v).fs.hasFile
        (destSink ccd n) = st.fs.hasFile (destSink ccd n) := by
      refine applyOutcome_hasFile_other c ccd st v _ (fun hc => ?_)
      exact hvn (hv2 hc.symm)
    have hlookeq : assocLookup (applyOutcome c ccd st v).errors n =
        assocLookup st.errors n :=
      applyOutcome_lookup_other c ccd st v n (fun hc => hvn hc.symm)
    rcases h with ⟨hk, hf⟩ | ⟨he, hk, hf, hd, hp⟩ | ⟨⟨m0, hk⟩, hf, hbl⟩
    · exact Or.inl ⟨by rw [hlookeq]; exact hk, by rw [hfileeq]; exact hf⟩
    · refine Or.inr (Or.inl ⟨he, by rw [hlookeq]; exact hk,
        by rw [hfileeq]; exact hf, ?_, ?_⟩)
      · cases hbd : (applyOutcome c ccd st v).fs.hasDir
            (destSink ccd n) with
        | false => rfl
        | true =>
          rcases applyOutcome_P1 c ccd st v _ hbd with h1 | h1
          · rw [h1] at hd
            exact absurd hd (by simp)
          · rw [hf] at h1
            exact absurd h1 (by simp)
      · exact applyOutcome_dir_mono c ccd st v _ hp
    · refine Or.inr (Or.inr ⟨⟨m0, by rw [hlookeq]; exact hk⟩,
        by rw [hfileeq]; exact hf, ?_⟩)
      rcases hbl with hb1 | hb1 | ⟨m2, hb1⟩
      · exact Or.inl hb1
      · exact Or.inr (Or.inl (applyOutcome_dir_mono c ccd st v _ hb1))
      · refine Or.inr (Or.inr ?_)
        exact FS.mkdirParents_error_persist st.fs
          (applyOutcome c ccd st v).fs _
          (fun p hp => applyOutcome_file_mono c ccd st v p hp)
          (fun p hp => applyOutcome_P1 c ccd st v p hp)
          (fun p hp => applyOutcome_P2 c ccd st v p hp) m2 hb1

theorem TriState_fold (c : Collab) (ccd : String) (n : String) (b : Bytes)
    (I : List (String × Bytes)) (st : SinkState)
    (hI : ∀ v ∈ I, (v.1 = n → v = (n, b)) ∧
      (destSink ccd v.1 = destSink ccd n → v.1 = n))
    (h : TriState c ccd n b st) :
    TriState c ccd n b (runSink c ccd st I) := by
  induction I generalizing st with
  | nil => exact h
  | cons v I ih =>
    rw [runSink_cons]
    exact ih _ (fun u hu => hI u (List.mem_cons_of_mem v hu))
      (TriState_step c ccd n b st v (hI v (List.mem_cons_self v I)).1
        (hI v (List.mem_cons_self v I)).2 h)

theorem applyOutcome_self_effect (c : Collab) (ccd : String)
    (st : SinkState) (n : String) (b : Bytes) :
    (applyOutcome c ccd st (n, b)).fs.hasFile (destSink ccd n) = true ∨
    ¬ assocLookup (applyOutcome c ccd st (n, b)).errors n = none := by
  rcases applyOutcome_cases c ccd st (n, b) with ⟨_, happ⟩ |
    ⟨m, _, _, happ⟩ | ⟨fs2, m, _, _, _, _, happ⟩ | ⟨fs2, _, _, _, happ⟩
  · refine Or.inr ?_
    rw [happ]
    show ¬ assocLookup (dictInsert st.errors (n, b).1 _) n = none
    rw [assocLookup_dictInsert, if_pos rfl]
    simp
  · refine Or.inr ?_
    rw [happ]
    show ¬ assocLookup (dictInsert st.errors (n, b).1 _) n = none
    rw [assocLookup_dictInsert, if_pos rfl]
    simp
  · refine Or.inr ?_
    rw [happ]
    show ¬ assocLookup (dictInsert st.errors (n, b).1 _) n = none
    rw [assocLookup_dictInsert, if_pos rfl]
    simp
  · refine Or.inl ?_
    rw [happ]
    show (fs2.writeFile (destSink ccd (n, b).1) _).hasFile
      (destSink ccd n) = true
    exact (FS.hasFile_writeFile _ _ _ _).mpr (Or.inr rfl)

theorem runSink_keeps_effect (c : Collab) (ccd : String) (n : String)
    (D : String) (I : List (String × Bytes)) (st : SinkState)
    (h : st.fs.hasFile D = true ∨ ¬ assocLookup st.errors n = none) :
    (runSink c ccd st I).fs.hasFile D = true ∨
      ¬ assocLookup (runSink c ccd st I).errors n = none := by
  induction I generalizing st with
  | nil => exact h
  | cons v I ih =>
    rw [runSink_cons]
    refine ih _ ?_
    rcases h with h1 | h1
    · exact Or.inl (applyOutcome_file_mono c ccd st v D h1)
    · exact Or.inr (applyOutcome_key_mono c ccd st v n h1)

theorem selectWork_mem (fs : FS) (arch : Archive) (ccd : String)
    (n : String) (b : Bytes) :
    (n, b) ∈ selectWork fs arch ccd ↔
      (n ∈ arch.names ∧ strHasSuffix n ".pyj" = true ∧
        fs.existsPath (destSelect ccd n) = false ∧ b = arch.read n) := by
  unfold selectWork
  rw [List.mem_filterMap]
  constructor
  · rintro ⟨x, hx, hfx⟩
    by_cases h1 : strHasSuffix x ".pyj" = true
    · by_cases h2 : fs.existsPath (destSelect ccd x) = true
      · simp [h1, h2] at hfx
      · rw [if_pos h1, if_neg h2] at hfx
        have h2f : fs.existsPath (destSelect ccd x) = false := by
          cases hb : fs.existsPath (destSelect ccd x) with
          | false => rfl
          | true => exact absurd hb h2
        rcases Option.some.inj hfx with hfx2
        rcases Prod.mk.injEq .. ▸ hfx2 with ⟨rfl, rfl⟩
        exact ⟨hx, h1, h2f, rfl⟩
    · simp [h1] at hfx
  · rintro ⟨hn, h1, h2, rfl⟩
    refine ⟨n, hn, ?_⟩
    rw [if_pos h1, if_neg (by simp [h2])]

theorem selectWork_reads (fs : FS) (arch : Archive) (ccd : String) :
    ∀ w ∈ selectWork fs arch ccd, w.2 = arch.read w.1 := by
  intro w hw
  obtain ⟨n, b⟩ := w
  exact ((selectWork_mem fs arch ccd n b).mp hw).2.2.2

theorem runMain_empty (c : Collab) (arch : Archive) (outBase : String)
    (jobs : Int) (sched : List (String × Bytes) → List (String × Bytes))
    (fs0 : FS) (ej0 : Option (String × String))
    (h : workOf arch outBase fs0 = []) :
    runMain c arch outBase jobs sched fs0 ej0 =
      { fatal := none, fs := fs0.mkdirAt (clientDir outBase), errors := [],
        errJson := ej0, calls := [] } := by
  unfold workOf at h
  simp [runMain, h]

theorem runMain_fatal_val (c : Collab) (arch : Archive) (outBase : String)
    (jobs : Int) (sched : List (String × Bytes) → List (String × Bytes))
    (fs0 : FS) (ej0 : Option (String × String))
    (hW : ¬ workOf arch outBase fs0 = []) (hj : jobs ≤ 0) :
    runMain c arch outBase jobs sched fs0 ej0 =
      { fatal := some "max_workers must be greater than 0",
        fs := fs0.mkdirAt (clientDir outBase), errors := [],
        errJson := ej0, calls := [] } := by
  unfold workOf at hW
  simp [runMain, hW, hj]

theorem runMain_run (c : Collab) (arch : Archive) (outBase : String)
    (jobs : Int) (sched : List (String × Bytes) → List (String × Bytes))
    (fs0 : FS) (ej0 : Option (String × String))
    (hW : ¬ workOf arch outBase fs0 = []) (hj : 1 ≤ jobs) :
    runMain c arch outBase jobs sched fs0 ej0 =
      { fatal := none
        fs := (runSink c (clientDir outBase)
          { fs := fs0.mkdirAt (clientDir outBase), errors := [] }
          (sched (workOf arch outBase fs0))).fs
        errors := (runSink c (clientDir outBase)
          { fs := fs0.mkdirAt (clientDir outBase), errors := [] }
          (sched (workOf arch outBase fs0))).errors
        errJson :=
          if (runSink c (clientDir outBase)
            { fs := fs0.mkdirAt (clientDir outBase), errors := [] }
            (sched (workOf arch outBase fs0))).errors.isEmpty then ej0
          else some (errorsPath outBase, serializeErrors
            (runSink c (clientDir outBase)
              { fs := fs0.mkdirAt (clientDir outBase), errors := [] }
              (sched (workOf arch outBase fs0))).errors)
        calls := (sched (workOf arch outBase fs0)).map (fun w => w.1) } := by
  unfold workOf at hW ⊢
  have hj0 : ¬ jobs ≤ 0 := by omega
  simp [runMain, hW, hj0]

/-! ### Path-arithmetic lemmas -/

theorem length_takeWhile_le (p : Char → Bool) (l : List Char) :
    (l.takeWhile p).length ≤ l.length := by
  induction l with
  | nil => simp
  | cons x xs ih =>
    rw [List.takeWhile_cons]
    by_cases hx : p x = true
    · rw [if_pos hx]
      simpa using ih
    · rw [if_neg hx]
      simp

theorem takeWhile_stop (p : Char → Bool) (xs zs : List Char)
    (hp : p '/' = false) :
    (xs ++ '/' :: zs).takeWhile p = xs.takeWhile p := by
  induction xs with
  | nil =>
    rw [List.nil_append, List.takeWhile_cons, if_neg (by simp [hp])]
    rfl
  | cons x xs ih =>
    rw [List.cons_append, List.takeWhile_cons, List.takeWhile_cons, ih]

theorem compNameL_append (a n : List Char) :
    compNameL (a ++ '/' :: n) = compNameL n := by
  unfold compNameL
  rw [List.reverse_append, List.reverse_cons, List.append_assoc,
    List.singleton_append]
  rw [takeWhile_stop _ _ _ (by rfl)]

theorem compNameL_length_le (n : List Char) :
    (compNameL n).length ≤ n.length := by
  unfold compNameL
  rw [List.length_reverse]
  calc (n.reverse.takeWhile _).length ≤ n.reverse.length :=
        length_takeWhile_le _ _
    _ = n.length := List.length_reverse n

theorem pySuffix_length_le (nm : List Char) :
    (pySuffix nm).length ≤ nm.length := by
  unfold pySuffix
  cases rfindDot nm with
  | none => simp
  | some i =>
    show (if 0 < i ∧ i < nm.length - 1 then nm.drop i else []).length ≤ nm.length
    by_cases h : 0 < i ∧ i < nm.length - 1
    · rw [if_pos h]
      simp
    · rw [if_neg h]
      simp

theorem strHasSuffix_pyj (n : String) (h : strHasSuffix n ".pyj" = true) :
    ∃ pre, n.data = pre ++ ['.', 'p', 'y', 'j'] := by
  unfold strHasSuffix at h
  rw [List.isSuffixOf_iff_suffix] at h
  rcases h with ⟨t, ht⟩
  exact ⟨t, by rw [← ht]⟩

theorem compNameL_ends_pyj (pre : List Char) :
    compNameL (pre ++ ['.', 'p', 'y', 'j']) =
      (pre.reverse.takeWhile (fun c => !(c == '/'))).reverse ++
        ['.', 'p', 'y', 'j'] := by
  unfold compNameL
  rw [List.reverse_append]
  show (('j' :: 'y' :: 'p' :: '.' :: pre.reverse).takeWhile _).reverse = _
  rw [List.takeWhile_cons, if_pos (by rfl), List.takeWhile_cons,
    if_pos (by rfl), List.takeWhile_cons, if_pos (by rfl),
    List.takeWhile_cons, if_pos (by rfl)]
  simp [List.append_assoc]

theorem rfindDot_pyj (q : List Char) :
    rfindDot (q ++ ['.', 'p', 'y', 'j']) = some q.length := by
  unfold rfindDot
  rw [List.reverse_append]
  show (match ('j' :: 'y' :: 'p' :: '.' :: q.reverse).findIdx?
    (fun c => c == '.') with
    | some k => some ((q ++ ['.', 'p', 'y', 'j']).length - 1 - k)
    | none => none) = _
  rw [List.findIdx?_cons, if_neg (by decide), List.findIdx?_cons,
    if_neg (by decide), List.findIdx?_cons, if_neg (by decide),
    List.findIdx?_cons, if_pos (by decide)]
  show some ((q ++ ['.', 'p', 'y', 'j']).length - 1 - 3) = _
  have hlen : (q ++ ['.', 'p', 'y', 'j']).length - 1 - 3 = q.length := by
    simp [List.length_append]
  rw [hlen]

theorem pySuffix_pyj (q : List Char) (hq : ¬ q = []) :
    pySuffix (q ++ ['.', 'p', 'y', 'j']) = ['.', 'p', 'y', 'j'] := by
  unfold pySuffix
  rw [rfindDot_pyj]
  have hlen : (q ++ ['.', 'p', 'y', 'j']).length = q.length + 4 := by
    simp [List.length_append]
  have hqpos : 0 < q.length := List.length_pos.mpr hq
  show (if 0 < q.length ∧ q.length < (q ++ ['.', 'p', 'y', 'j']).length - 1
    then (q ++ ['.', 'p', 'y', 'j']).drop q.length else []) = _
  rw [if_pos (by omega)]
  exact List.drop_left q _

theorem pathJoinL_rel (a : List Char) (n : String) (h : isAbs n = false) :
    pathJoinL a n.data = a ++ '/' :: n.data := by
  unfold pathJoinL
  unfold isAbs at h
  cases hd : n.data with
  | nil => rfl
  | cons c rest =>
    rw [hd] at h
    have hc : (c == '/') = false := h
    have hcond : ¬ ((c :: rest).head? == some '/') = true := by
      intro habs
      have habs2 : (c == '/') = true := habs
      rw [habs2] at hc
      simp at hc
    rw [if_neg hcond]

theorem withSuffixL_join_rel (a n suf : List Char) :
    withSuffixL (a ++ '/' :: n) suf =
      a ++ '/' :: (n.take (n.length -
        (pySuffix (compNameL n)).length) ++ suf) := by
  unfold withSuffixL
  rw [compNameL_append]
  have holen : (pySuffix (compNameL n)).length ≤ n.length :=
    le_trans (pySuffix_length_le _) (compNameL_length_le n)
  have hlen : (a ++ '/' :: n).length = a.length + 1 + n.length := by
    simp [List.length_append]
    omega
  rw [hlen]
  have hK : a.length + 1 + n.length - (pySuffix (compNameL n)).length
      = a.length + ((n.length - (pySuffix (compNameL n)).length) + 1) := by
    omega
  rw [hK]
  rw [List.take_append_eq_append_take]
  rw [List.take_of_length_le (by omega :
    a.length ≤ a.length + ((n.length - (pySuffix (compNameL n)).length) + 1))]
  have hsub : a.length + ((n.length - (pySuffix (compNameL n)).length) + 1)
      - a.length = (n.length - (pySuffix (compNameL n)).length) + 1 := by
    omega
  rw [hsub]
  rw [List.take_succ_cons]
  rw [List.append_assoc]
  rfl

theorem existsPath_false_parts (fs : FS) (p : String)
    (h : fs.existsPath p = false) :
    fs.hasFile p = false ∧ fs.hasDir p = false := by
  unfold FS.existsPath at h
  rcases Bool.or_eq_false_iff.mp h with ⟨h1, h2⟩
  exact ⟨h1, h2⟩

/-! ### Whole-run characterizations -/

theorem runMain_hasDir_ccd (c : Collab) (arch : Archive) (outBase : String)
    (jobs : Int) (sched : List (String × Bytes) → List (String × Bytes))
    (fs0 : FS) (ej0 : Option (String × String)) :
    (runMain c arch outBase jobs sched fs0 ej0).fs.hasDir
      (clientDir outBase) = true := by
  by_cases hW : workOf arch outBase fs0 = []
  · rw [runMain_empty c arch outBase jobs sched fs0 ej0 hW]
    exact FS.hasDir_mkdirAt_self fs0 (clientDir outBase)
  · by_cases hj : jobs ≤ 0
    · rw [runMain_fatal_val c arch outBase jobs sched fs0 ej0 hW hj]
      exact FS.hasDir_mkdirAt_self fs0 (clientDir outBase)
    · have hj1 : (1 : Int) ≤ jobs := by omega
      rw [runMain_run c arch outBase jobs sched fs0 ej0 hW hj1]
      exact runSink_dir_mono c (clientDir outBase) _ _ _
        (FS.hasDir_mkdirAt_self fs0 (clientDir outBase))

/-- Clean-layout characterization of a full run: when no destination lies
on another destination's parent chain (nor on its own), no initial
regular file blocks a chain and no initial directory occupies a
destination, the run's observable file set, stable directories, ErrorMap
lookups and emptiness are all determined by the work list alone,
independent of completion order. -/
theorem runMain_clean (c : Collab) (arch : Archive) (outBase : String)
    (jobs : Int) (sched : List (String × Bytes) → List (String × Bytes))
    (fs0 : FS) (ej0 : Option (String × String)) (hj : (1 : Int) ≤ jobs)
    (hperm : List.Perm (sched (workOf arch outBase fs0))
      (workOf arch outBase fs0))
    (hA : ∀ w ∈ workOf arch outBase fs0,
      ∀ a ∈ ancestorsOf (destSink (clientDir outBase) w.1),
        (fs0.mkdirAt (clientDir outBase)).hasFile a = false)
    (hB : ∀ w ∈ workOf arch outBase fs0,
      (fs0.mkdirAt (clientDir outBase)).hasDir
        (destSink (clientDir outBase) w.1) = false)
    (hC : ∀ w ∈ workOf arch outBase fs0, ∀ v ∈ workOf arch outBase fs0,
      ¬ destSink (clientDir outBase) w.1 ∈
        ancestorsOf (destSink (clientDir outBase) v.1)) :
    (∀ p, ((runMain c arch outBase jobs sched fs0 ej0).fs.hasFile p = true ↔
      ((fs0.mkdirAt (clientDir outBase)).hasFile p = true ∨
        ∃ w ∈ workOf arch outBase fs0, errOf c w = "" ∧
          destSink (clientDir outBase) w.1 = p))) ∧
    (∀ p, (∀ w ∈ workOf arch outBase fs0,
        ¬ p ∈ ancestorsOf (destSink (clientDir outBase) w.1)) →
      (runMain c arch outBase jobs sched fs0 ej0).fs.hasDir p =
        (fs0.mkdirAt (clientDir outBase)).hasDir p) ∧
    (∀ k, assocLookup (runMain c arch outBase jobs sched fs0 ej0).errors k =
      (if ∃ w ∈ workOf arch outBase fs0, w.1 = k ∧ ¬ errOf c w = ""
       then some (errOf c (k, arch.read k)) else none)) ∧
    ((runMain c arch outBase jobs sched fs0 ej0).errors = [] ↔
      ∀ w ∈ workOf arch outBase fs0, errOf c w = "") := by
  by_cases hW : workOf arch outBase fs0 = []
  · rw [runMain_empty c arch outBase jobs sched fs0 ej0 hW, hW]
    refine ⟨fun p => by simp, fun p _ => rfl,
      fun k => by simp [assocLookup], by simp⟩
  · rw [runMain_run c arch outBase jobs sched fs0 ej0 hW hj]
    obtain ⟨h1, h2, h3, h4⟩ := runSink_clean c (clientDir outBase) arch.read
      (sched (workOf arch outBase fs0))
      { fs := fs0.mkdirAt (clientDir outBase), errors := [] }
      (fun w hw => selectWork_reads _ arch _ w (hperm.mem_iff.mp hw))
      (fun w hw => hA w (hperm.mem_iff.mp hw))
      (fun w hw => hB w (hperm.mem_iff.mp hw))
      (fun w hw v hv => hC w (hperm.mem_iff.mp hw) v (hperm.mem_iff.mp hv))
    refine ⟨?_, ?_, ?_, ?_⟩
    · intro p
      rw [h1 p]
      constructor
      · rintro (hx | ⟨w, hw, hrest⟩)
        · exact Or.inl hx
        · exact Or.inr ⟨w, hperm.mem_iff.mp hw, hrest⟩
      · rintro (hx | ⟨w, hw, hrest⟩)
        · exact Or.inl hx
        · exact Or.inr ⟨w, hperm.mem_iff.mpr hw, hrest⟩
    · intro p hp
      exact h2 p (fun w hw => hp w (hperm.mem_iff.mp hw))
    · intro k
      rw [h3 k]
      by_cases hE : ∃ w ∈ workOf arch outBase fs0, w.1 = k ∧ ¬ errOf c w = ""
      · rw [if_pos (by
          rcases hE with ⟨w, hw, hrest⟩
          exact ⟨w, hperm.mem_iff.mpr hw, hrest⟩), if_pos hE]
      · rw [if_neg (by
          rintro ⟨w, hw, hrest⟩
          exact hE ⟨w, hperm.mem_iff.mp hw, hrest⟩), if_neg hE]
        rfl
    · rw [h4]
      constructor
      · rintro ⟨_, hx⟩ w hw
        exact hx w (hperm.mem_iff.mpr hw)
      · intro hx
        exact ⟨rfl, fun w hw => hx w (hperm.mem_iff.mp hw)⟩

theorem runMain_hasFile_char (c : Collab) (arch : Archive) (outBase : String)
    (jobs : Int) (sched : List (String × Bytes) → List (String × Bytes))
    (fs0 : FS) (ej0 : Option (String × String)) (hj : (1 : Int) ≤ jobs)
    (hperm : List.Perm (sched (workOf arch outBase fs0))
      (workOf arch outBase fs0))
    (hA : ∀ w ∈ workOf arch outBase fs0,
      ∀ a ∈ ancestorsOf (destSink (clientDir outBase) w.1),
        (fs0.mkdirAt (clientDir outBase)).hasFile a = false)
    (hB : ∀ w ∈ workOf arch outBase fs0,
      (fs0.mkdirAt (clientDir outBase)).hasDir
        (destSink (clientDir outBase) w.1) = false)
    (hC : ∀ w ∈ workOf arch outBase fs0, ∀ v ∈ workOf arch outBase fs0,
      ¬ destSink (clientDir outBase) w.1 ∈
        ancestorsOf (destSink (clientDir outBase) v.1)) (p : String) :
    (runMain c arch outBase jobs sched fs0 ej0).fs.hasFile p = true ↔
      ((fs0.mkdirAt (clientDir outBase)).hasFile p = true ∨
        ∃ w ∈ workOf arch outBase fs0, errOf c w = "" ∧
          destSink (clientDir outBase) w.1 = p) :=
  (runMain_clean c arch outBase jobs sched fs0 ej0 hj hperm hA hB hC).1 p

theorem runMain_hasDir_stable (c : Collab) (arch : Archive)
    (outBase : String) (jobs : Int)
    (sched : List (String × Bytes) → List (String × Bytes))
    (fs0 : FS) (ej0 : Option (String × String)) (hj : (1 : Int) ≤ jobs)
    (hperm : List.Perm (sched (workOf arch outBase fs0))
      (workOf arch outBase fs0))
    (hA : ∀ w ∈ workOf arch outBase fs0,
      ∀ a ∈ ancestorsOf (destSink (clientDir outBase) w.1),
        (fs0.mkdirAt (clientDir outBase)).hasFile a = false)
    (hB : ∀ w ∈ workOf arch outBase fs0,
      (fs0.mkdirAt (clientDir outBase)).hasDir
        (destSink (clientDir outBase) w.1) = false)
    (hC : ∀ w ∈ workOf arch outBase fs0, ∀ v ∈ workOf arch outBase fs0,
      ¬ destSink (clientDir outBase) w.1 ∈
        ancestorsOf (destSink (clientDir outBase) v.1)) (p : String)
    (hp : ∀ w ∈ workOf arch outBase fs0,
      ¬ p ∈ ancestorsOf (destSink (clientDir outBase) w.1)) :
    (runMain c arch outBase jobs sched fs0 ej0).fs.hasDir p =
      (fs0.mkdirAt (clientDir outBase)).hasDir p :=
  (runMain_clean c arch outBase jobs sched fs0 ej0 hj hperm hA hB hC).2.1
    p hp

theorem runMain_lookup (c : Collab) (arch : Archive) (outBase : String)
    (jobs : Int) (sched : List (String × Bytes) → List (String × Bytes))
    (fs0 : FS) (ej0 : Option (String × String)) (hj : (1 : Int) ≤ jobs)
    (hperm : List.Perm (sched (workOf arch outBase fs0))
      (workOf arch outBase fs0))
    (hA : ∀ w ∈ workOf arch outBase fs0,
      ∀ a ∈ ancestorsOf (destSink (clientDir outBase) w.1),
        (fs0.mkdirAt (clientDir outBase)).hasFile a = false)
    (hB : ∀ w ∈ workOf arch outBase fs0,
      (fs0.mkdirAt (clientDir outBase)).hasDir
        (destSink (clientDir outBase) w.1) = false)
    (hC : ∀ w ∈ workOf arch outBase fs0, ∀ v ∈ workOf arch outBase fs0,
      ¬ destSink (clientDir outBase) w.1 ∈
        ancestorsOf (destSink (clientDir outBase) v.1)) (k : String) :
    assocLookup (runMain c arch outBase jobs sched fs0 ej0).errors k =
      (if ∃ w ∈ workOf arch outBase fs0, w.1 = k ∧ ¬ errOf c w = ""
       then some (errOf c (k, arch.read k)) else none) :=
  (runMain_clean c arch outBase jobs sched fs0 ej0 hj hperm hA hB hC).2.2.1 k

theorem runMain_errors_nil_char (c : Collab) (arch : Archive)
    (outBase : String) (jobs : Int)
    (sched : List (String × Bytes) → List (String × Bytes))
    (fs0 : FS) (ej0 : Option (String × String)) (hj : (1 : Int) ≤ jobs)
    (hperm : List.Perm (sched (workOf arch outBase fs0))
      (workOf arch outBase fs0))
    (hA : ∀ w ∈ workOf arch outBase fs0,
      ∀ a ∈ ancestorsOf (destSink (clientDir outBase) w.1),
        (fs0.mkdirAt (clientDir outBase)).hasFile a = false)
    (hB : ∀ w ∈ workOf arch outBase fs0,
      (fs0.mkdirAt (clientDir outBase)).hasDir
        (destSink (clientDir outBase) w.1) = false)
    (hC : ∀ w ∈ workOf arch outBase fs0, ∀ v ∈ workOf arch outBase fs0,
      ¬ destSink (clientDir outBase) w.1 ∈
        ancestorsOf (destSink (clientDir outBase) v.1)) :
    (runMain c arch outBase jobs sched fs0 ej0).errors = [] ↔
      ∀ w ∈ workOf arch outBase fs0, errOf c w = "" :=
  (runMain_clean c arch outBase jobs sched fs0 ej0 hj hperm hA hB hC).2.2.2

theorem runMain_errJson_char (c : Collab) (arch : Archive) (outBase : String)
    (jobs : Int) (sched : List (String × Bytes) → List (String × Bytes))
    (fs0 : FS) (ej0 : Option (String × String)) :
    (runMain c arch outBase jobs sched fs0 ej0).errJson =
      if (runMain c arch outBase jobs sched fs0 ej0).errors = [] then ej0
      else some (errorsPath outBase, serializeErrors
        (runMain c arch outBase jobs sched fs0 ej0).errors) := by
  by_cases hW : workOf arch outBase fs0 = []
  · rw [runMain_empty c arch outBase jobs sched fs0 ej0 hW]
    simp
  · by_cases hj : jobs ≤ 0
    · rw [runMain_fatal_val c arch outBase jobs sched fs0 ej0 hW hj]
      simp
    · have hj1 : (1 : Int) ≤ jobs := by omega
      rw [runMain_run c arch outBase jobs sched fs0 ej0 hW hj1]
      show (if (runSink c (clientDir outBase)
          { fs := fs0.mkdirAt (clientDir outBase), errors := [] }
          (sched (workOf arch outBase fs0))).errors.isEmpty then ej0
        else _) = _
      by_cases he : (runSink c (clientDir outBase)
          { fs := fs0.mkdirAt (clientDir outBase), errors := [] }
          (sched (workOf arch outBase fs0))).errors = []
      · rw [if_pos (List.isEmpty_iff.mpr he), if_pos he]
      · rw [if_neg (fun habs => he (List.isEmpty_iff.mp habs)), if_neg he]

theorem runMain_calls_run (c : Collab) (arch : Archive) (outBase : String)
    (jobs : Int) (sched : List (String × Bytes) → List (String × Bytes))
    (fs0 : FS) (ej0 : Option (String × String))
    (hW : ¬ workOf arch outBase fs0 = []) (hj : (1 : Int) ≤ jobs) :
    (runMain c arch outBase jobs sched fs0 ej0).calls =
      (sched (workOf arch outBase fs0)).map (fun w => w.1) := by
  rw [runMain_run c arch outBase jobs sched fs0 ej0 hW hj]

theorem runMain_fatal_none (c : Collab) (arch : Archive) (outBase : String)
    (jobs : Int) (sched : List (String × Bytes) → List (String × Bytes))
    (fs0 : FS) (ej0 : Option (String × String)) (hj : (1 : Int) ≤ jobs) :
    (runMain c arch outBase jobs sched fs0 ej0).fatal = none := by
  by_cases hW : workOf arch outBase fs0 = []
  · rw [runMain_empty c arch outBase jobs sched fs0 ej0 hW]
  · rw [runMain_run c arch outBase jobs sched fs0 ej0 hW hj]

theorem dest_eq : destSelect = destSink := rfl

theorem existsPath_mkdirAt_mono (fs : FS) (d p : String)
    (h : fs.existsPath p = true) : (fs.mkdirAt d).existsPath p = true := by
  unfold FS.existsPath at h ⊢
  rcases Bool.or_eq_true_iff.mp h with h1 | h2
  · rw [FS.hasFile_mkdirAt, h1]
    rfl
  · have := (FS.hasDir_mkdirAt fs d p).mpr (Or.inl h2)
    rw [this]
    simp

theorem runMain_existsPath_mono (c : Collab) (arch : Archive)
    (outBase : String) (jobs : Int)
    (sched : List (String × Bytes) → List (String × Bytes))
    (fs0 : FS) (ej0 : Option (String × String)) (p : String)
    (h : (fs0.mkdirAt (clientDir outBase)).existsPath p = true) :
    (runMain c arch outBase jobs sched fs0 ej0).fs.existsPath p = true := by
  by_cases hW : workOf arch outBase fs0 = []
  · rw [runMain_empty c arch outBase jobs sched fs0 ej0 hW]
    exact h
  · by_cases hj : jobs ≤ 0
    · rw [runMain_fatal_val c arch outBase jobs sched fs0 ej0 hW hj]
      exact h
    · have hj1 : (1 : Int) ≤ jobs := by omega
      rw [runMain_run c arch outBase jobs sched fs0 ej0 hW hj1]
      unfold FS.existsPath at h ⊢
      rcases Bool.or_eq_true_iff.mp h with h1 | h2
      · have hmono := runSink_file_mono c (clientDir outBase)
          (sched (workOf arch outBase fs0))
          { fs := fs0.mkdirAt (clientDir outBase), errors := [] } p h1
        rw [hmono]
        rfl
      · have hmono := runSink_dir_mono c (clientDir outBase)
          (sched (workOf arch outBase fs0))
          { fs := fs0.mkdirAt (clientDir outBase), errors := [] } p h2
        rw [hmono]
        simp

theorem filterMap_filter_of_ptwise {α β : Type} (l : List α)
    (f1 f2 : α → Option β) (p : β → Bool)
    (h : ∀ x ∈ l, f2 x = match f1 x with
      | some b => if p b then some b else none
      | none => none) :
    l.filterMap f2 = (l.filterMap f1).filter p := by
  induction l with
  | nil => rfl
  | cons x l ih =>
    rw [List.filterMap_cons, List.filterMap_cons]
    have hx := h x (List.mem_cons_self x l)
    have ihr := ih (fun y hy => h y (List.mem_cons_of_mem x hy))
    cases hf1 : f1 x with
    | none =>
      rw [hf1] at hx
      have hx2 : f2 x = none := hx
      rw [hx2]
      show List.filterMap f2 l = List.filter p (List.filterMap f1 l)
      exact ihr
    | some b =>
      rw [hf1] at hx
      have hx2 : f2 x = if p b = true then some b else none := hx
      by_cases hpb : p b = true
      · rw [hx2, if_pos hpb]
        show b :: List.filterMap f2 l = List.filter p (b :: List.filterMap f1 l)
        rw [List.filter_cons_of_pos hpb, ihr]
      · rw [hx2, if_neg hpb]
        show List.filterMap f2 l = List.filter p (b :: List.filterMap f1 l)
        rw [List.filter_cons_of_neg (by simpa using hpb), ihr]

/-! ### Concrete sample inputs used by witnesses and counterexamples -/

/-- A collaborator stack for which every member decompiles to `pass`. -/
def okCollab : Collab :=
  { zlibDecompress := fun b => Except.ok b
    loadModule := fun _ _ => Except.ok
      { version := "2.7", ts := 0, magic := 62211, code := some 1,
        pypy := false, srcSize := 0, extra := 0 }
    uncompyleDecompile := fun _ _ _ _ _ _ => Except.ok "pass\n" }

/-- Collaborator whose decompression accepts only the payload `[0]`. -/
def mixCollab : Collab :=
  { okCollab with zlibDecompress := fun b =>
      if b == [0] then Except.ok [0]
      else Except.error "Error -3 while decompressing data" }

/-- Collaborator whose decompression always fails. -/
def badCollab : Collab :=
  { okCollab with zlibDecompress := fun _ =>
      Except.error "Error -3 while decompressing data" }

/-- Collaborator raising an exception whose string form is empty. -/
def emptyMsgCollab : Collab :=
  { okCollab with zlibDecompress := fun _ => Except.error "" }

/-- Collaborator whose module loading fails. -/
def loadFailCollab : Collab :=
  { okCollab with loadModule := fun _ _ => Except.error "bad magic" }

/-- A loaded module whose code object is falsy (`None`). -/
def noCodeMod : LoadedMod :=
  { version := "2.7", ts := 0, magic := 0, code := none,
    pypy := false, srcSize := 0, extra := 0 }

/-- Collaborator returning a falsy (`None`) code object. -/
def noCodeCollab : Collab :=
  { okCollab with loadModule := fun _ _ => Except.ok noCodeMod }

/-- Collaborator whose decompile stage fails. -/
def decompFailCollab : Collab :=
  { okCollab with uncompyleDecompile := fun _ _ _ _ _ _ =>
      Except.error "parse error" }

/-- Archive with a good member, a bad member, and a non-`.pyj` member. -/
def archAB : Archive :=
  { names := ["a.pyj", "b.pyj", "c.txt"]
    read := fun n => if n == "a.pyj" then [0] else [1] }

/-- Archive with a single member whose payload fails decompression. -/
def archB : Archive := { names := ["b.pyj"], read := fun _ => [1] }

/-- Archive whose two member names collide on one destination path. -/
def archDot : Archive :=
  { names := [".pyj", ".pyj.pyj"]
    read := fun n => if n == ".pyj" then [0] else [1] }

/-- Archive with a single good member. -/
def archX : Archive := { names := ["x.pyj"], read := fun _ => [0] }

/-- Archive whose second member's destination nests under the first
member's destination (`a.py` and `a.py/b.py`); both payloads decode. -/
def archNest : Archive :=
  { names := ["a.pyj", "a.py/b.pyj"], read := fun _ => [0] }

/-- Archive with no members. -/
def archNone : Archive := { names := [], read := fun _ => [] }

def fsEmpty : FS := { files := [], dirs := [] }

/-- A filesystem holding a directory at the destination of `x.pyj`. -/
def fsDirAtDest : FS := { files := [], dirs := ["/o/client_code/x.py"] }

/-! ### Claims -/

/-- C2 (confirmed): the per-item decode adapter never raises past its own
boundary: every failure mode of `decompile_pyj_blob` — decompression
failure, module-load failure (wrapped in the `Failed to load code object`
message), missing code object, or decompile failure — is caught by
`process_pyj_member` and converted into the failure triple
`(name, "", message)` carrying the exception's message string, and a
success yields `(name, source, "")`; the adapter is a total function, so
nothing escapes to crash a worker or the pool. -/
theorem spec_C2 (c : Collab) (n : String) (b : Bytes) :
    (∀ m, c.zlibDecompress b = Except.error m →
      process_pyj_member c (n, b) = (n, "", m)) ∧
    (∀ d e, c.zlibDecompress b = Except.ok d →
      c.loadModule d n = Except.error e →
      process_pyj_member c (n, b) =
        (n, "", "[" ++ n ++ "] Failed to load code object: " ++ e)) ∧
    (∀ d lm, c.zlibDecompress b = Except.ok d →
      c.loadModule d n = Except.ok lm → lm.code = none →
      process_pyj_member c (n, b) =
        (n, "", "[" ++ n ++ "] No code object found.")) ∧
    (∀ d lm cd m, c.zlibDecompress b = Except.ok d →
      c.loadModule d n = Except.ok lm → lm.code = some cd →
      c.uncompyleDecompile cd lm.version lm.pypy lm.magic lm.ts lm.srcSize =
        Except.error m →
      process_pyj_member c (n, b) = (n, "", m)) ∧
    (∀ s, decompile_pyj_blob c b n = Except.ok s →
      process_pyj_member c (n, b) = (n, s, "")) := by
  refine ⟨?_, ?_, ?_, ?_, ?_⟩
  · intro m h
    simp [process_pyj_member, decompile_pyj_blob, h]
  · intro d e h1 h2
    simp [process_pyj_member, decompile_pyj_blob, h1, h2]
  · intro d lm h1 h2 h3
    simp [process_pyj_member, decompile_pyj_blob, h1, h2, h3]
  · intro d lm cd m h1 h2 h3 h4
    simp [process_pyj_member, decompile_pyj_blob, h1, h2, h3, h4]
  · intro s h
    simp [process_pyj_member, h]

theorem spec_C2_witness :
    process_pyj_member badCollab ("a.pyj", [9]) =
      ("a.pyj", "", "Error -3 while decompressing data") ∧
    process_pyj_member loadFailCollab ("a.pyj", [9]) =
      ("a.pyj", "", "[a.pyj] Failed to load code object: bad magic") ∧
    process_pyj_member noCodeCollab ("a.pyj", [9]) =
      ("a.pyj", "", "[a.pyj] No code object found.") ∧
    process_pyj_member decompFailCollab ("a.pyj", [9]) =
      ("a.pyj", "", "parse error") ∧
    process_pyj_member okCollab ("a.pyj", [9]) = ("a.pyj", "pass\n", "") :=
  ⟨(spec_C2 badCollab "a.pyj" [9]).1 _ rfl,
   (spec_C2 loadFailCollab "a.pyj" [9]).2.1 [9] "bad magic" rfl rfl,
   (spec_C2 noCodeCollab "a.pyj" [9]).2.2.1 [9] noCodeMod rfl rfl rfl,
   (spec_C2 decompFailCollab "a.pyj" [9]).2.2.2.1 [9] _ 1 "parse error"
     rfl rfl rfl rfl,
   (spec_C2 okCollab "a.pyj" [9]).2.2.2.2 "pass\n" rfl⟩

/-- C9 (confirmed): an outcome is classified solely by emptiness of its
error string: a non-empty error component is recorded
(`errors[member] = error`) and nothing is written, while an empty error
component — in particular a caught exception whose string form is empty,
which yields the triple `(n, "", "")` — is treated as a success:
whenever the sink's own mkdir and write steps go through (the parent
chain is creatable and no directory occupies the destination), it writes
the (empty) source at the destination and records no ErrorMap entry. -/
theorem spec_C9 :
    (∀ (c : Collab) (ccd : String) (st : SinkState) (w : String × Bytes)
      (fs2 : FS),
      errOf c w = "" →
      st.fs.mkdirParents (parentDir (destSink ccd w.1)) = Except.ok fs2 →
      fs2.hasDir (destSink ccd w.1) = false →
      applyOutcome c ccd st w =
        { fs := fs2.writeFile (destSink ccd w.1) (srcOf c w),
          errors := st.errors }) ∧
    (∀ (c : Collab) (ccd : String) (st : SinkState) (w : String × Bytes),
      ¬ errOf c w = "" →
      applyOutcome c ccd st w =
        { st with errors := dictInsert st.errors w.1 (errOf c w) }) ∧
    (∀ (c : Collab) (n : String) (b : Bytes) (ccd : String)
      (st : SinkState) (fs2 : FS),
      decompile_pyj_blob c b n = Except.error "" →
      st.fs.mkdirParents (parentDir (destSink ccd n)) = Except.ok fs2 →
      fs2.hasDir (destSink ccd n) = false →
      process_pyj_member c (n, b) = (n, "", "") ∧
      applyOutcome c ccd st (n, b) =
        { fs := fs2.writeFile (destSink ccd n) "",
          errors := st.errors }) := by
  have hwr : ∀ (c : Collab) (ccd : String) (st : SinkState)
      (w : String × Bytes) (fs2 : FS), errOf c w = "" →
      st.fs.mkdirParents (parentDir (destSink ccd w.1)) = Except.ok fs2 →
      fs2.hasDir (destSink ccd w.1) = false →
      applyOutcome c ccd st w =
        { fs := fs2.writeFile (destSink ccd w.1) (srcOf c w),
          errors := st.errors } := by
    intro c ccd st w fs2 he hm hd
    refine applyOutcome_write_ok c ccd st w fs2 _ he hm ?_
    unfold FS.writeText
    rw [if_neg (by simp [hd])]
  refine ⟨hwr, applyOutcome_fail, ?_⟩
  intro c n b ccd st fs2 h hm hd
  have hp : process_pyj_member c (n, b) = (n, "", "") := by
    simp [process_pyj_member, h]
  have he : errOf c (n, b) = "" := by
    simp [errOf, hp]
  have hs : srcOf c (n, b) = "" := by
    simp [srcOf, hp]
  refine ⟨hp, ?_⟩
  rw [hwr c ccd st (n, b) fs2 he hm hd, hs]

theorem spec_C9_witness :
    process_pyj_member emptyMsgCollab ("a.pyj", [9]) = ("a.pyj", "", "") ∧
    applyOutcome emptyMsgCollab "/o/client_code"
        { fs := fsEmpty, errors := [] } ("a.pyj", [9]) =
      { fs := FS.writeFile ⟨[], ["/", "/o", "/o/client_code"]⟩
          (destSink "/o/client_code" "a.pyj") "",
        errors := [] } :=
  spec_C9.2.2 emptyMsgCollab "a.pyj" [9] "/o/client_code"
    { fs := fsEmpty, errors := [] } ⟨[], ["/", "/o", "/o/client_code"]⟩
    rfl rfl (by decide)

/-- C7 (confirmed): if the accumulated error map is empty at the end of a
run, the diagnostic artifact is not written (the pre-existing artifact
state persists, so starting from absence it remains absent — not an empty
object); if it is non-empty, it is serialized to the fixed path
`outputRoot/decompile_errors.json`, overwriting whatever was there. -/
theorem spec_C7 (c : Collab) (arch : Archive) (outBase : String)
    (jobs : Int) (sched : List (String × Bytes) → List (String × Bytes))
    (fs0 : FS) (ej0 : Option (String × String)) :
    ((runMain c arch outBase jobs sched fs0 ej0).errors = [] →
      (runMain c arch outBase jobs sched fs0 ej0).errJson = ej0) ∧
    ((runMain c arch outBase jobs sched fs0 ej0).errors = [] → ej0 = none →
      (runMain c arch outBase jobs sched fs0 ej0).errJson = none) ∧
    (¬ (runMain c arch outBase jobs sched fs0 ej0).errors = [] →
      (runMain c arch outBase jobs sched fs0 ej0).errJson =
        some (errorsPath outBase, serializeErrors
          (runMain c arch outBase jobs sched fs0 ej0).errors)) := by
  refine ⟨?_, ?_, ?_⟩
  · intro he
    rw [runMain_errJson_char, if_pos he]
  · intro he hnone
    rw [runMain_errJson_char, if_pos he, hnone]
  · intro he
    rw [runMain_errJson_char, if_neg he]

theorem spec_C7_witness :
    (runMain mixCollab archAB "/o" 1 id fsEmpty none).errJson =
      some (errorsPath "/o", serializeErrors
        (runMain mixCollab archAB "/o" 1 id fsEmpty none).errors) ∧
    (runMain okCollab archAB "/o" 1 id fsEmpty none).errJson = none :=
  ⟨(spec_C7 mixCollab archAB "/o" 1 id fsEmpty none).2.2 (by decide),
   (spec_C7 okCollab archAB "/o" 1 id fsEmpty none).2.1 (by decide) rfl⟩

/-- C10 (confirmed): the `client_code/` directory is created
unconditionally before work selection, so it exists in the final
filesystem of every run — including a run whose work list is empty, which
returns "Nothing to do" leaving the filesystem exactly
`fs0.mkdirAt (clientDir outBase)`. -/
theorem spec_C10 (c : Collab) (arch : Archive) (outBase : String)
    (jobs : Int) (sched : List (String × Bytes) → List (String × Bytes))
    (fs0 : FS) (ej0 : Option (String × String)) :
    (runMain c arch outBase jobs sched fs0 ej0).fs.hasDir
      (clientDir outBase) = true ∧
    (workOf arch outBase fs0 = [] →
      runMain c arch outBase jobs sched fs0 ej0 =
        { fatal := none, fs := fs0.mkdirAt (clientDir outBase), errors := [],
          errJson := ej0, calls := [] }) :=
  ⟨runMain_hasDir_ccd c arch outBase jobs sched fs0 ej0,
   runMain_empty c arch outBase jobs sched fs0 ej0⟩

theorem spec_C10_witness :
    (runMain okCollab archNone "/o" 4 id fsEmpty none).fs.hasDir
      (clientDir "/o") = true ∧
    runMain okCollab archNone "/o" 4 id fsEmpty none =
      { fatal := none, fs := fsEmpty.mkdirAt (clientDir "/o"), errors := [],
        errJson := none, calls := [] } :=
  ⟨(spec_C10 okCollab archNone "/o" 4 id fsEmpty none).1,
   (spec_C10 okCollab archNone "/o" 4 id fsEmpty none).2 (by decide)⟩

/-- C3 counterexample: the claim says a requested concurrency below 1 is
clamped to 1 and the run proceeds (not an error).  The code contains no
clamp: `main` passes `args.jobs` directly to `ProcessPoolExecutor`, which
rejects non-positive `max_workers` with a `ValueError`.  With one pending
work item and `jobs = 0` the run aborts fatally, calls no adapter and
writes no file. -/
theorem spec_C3_cex :
    (runMain okCollab archX "/o" 0 id fsEmpty none).fatal =
      some "max_workers must be greater than 0" ∧
    (runMain okCollab archX "/o" 0 id fsEmpty none).calls = [] ∧
    (runMain okCollab archX "/o" 0 id fsEmpty none).fs.files = [] := by
  decide

/-- C3 (amended): if the requested concurrency is less than 1 and at
least one work item is pending, the run aborts with the executor's
`ValueError` ("max_workers must be greater than 0") before any adapter
call or write — there is no clamping; with concurrency at least 1, or
with nothing to do (the pool is never constructed), no such fatal error
occurs. -/
theorem spec_C3 (c : Collab) (arch : Archive) (outBase : String)
    (jobs : Int) (sched : List (String × Bytes) → List (String × Bytes))
    (fs0 : FS) (ej0 : Option (String × String)) :
    (¬ workOf arch outBase fs0 = [] → jobs ≤ 0 →
      runMain c arch outBase jobs sched fs0 ej0 =
        { fatal := some "max_workers must be greater than 0",
          fs := fs0.mkdirAt (clientDir outBase), errors := [],
          errJson := ej0, calls := [] }) ∧
    ((1 : Int) ≤ jobs →
      (runMain c arch outBase jobs sched fs0 ej0).fatal = none) ∧
    (workOf arch outBase fs0 = [] →
      (runMain c arch outBase jobs sched fs0 ej0).fatal = none) := by
  refine ⟨?_, ?_, ?_⟩
  · intro hW hj
    exact runMain_fatal_val c arch outBase jobs sched fs0 ej0 hW hj
  · intro hj
    exact runMain_fatal_none c arch outBase jobs sched fs0 ej0 hj
  · intro hW
    rw [runMain_empty c arch outBase jobs sched fs0 ej0 hW]

theorem spec_C3_witness :
    runMain okCollab archB "/o" (-2) id fsEmpty none =
      { fatal := some "max_workers must be greater than 0",
        fs := fsEmpty.mkdirAt (clientDir "/o"), errors := [],
        errJson := none, calls := [] } ∧
    (runMain okCollab archB "/o" 4 id fsEmpty none).fatal = none :=
  ⟨(spec_C3 okCollab archB "/o" (-2) id fsEmpty none).1 (by decide) (by decide),
   (spec_C3 okCollab archB "/o" 4 id fsEmpty none).2.1 (by decide)⟩

/-- C5 counterexample: the claim's selection criterion says "no regular
file already exists at its DestinationPath".  The code's check is
`out_path.exists()`, which is also true for a directory.  With a
pre-existing DIRECTORY at `/o/client_code/x.py` — so no regular file
exists at the destination — the `.pyj` entry `x.pyj` is nonetheless
dropped from the work list, contradicting the claim's "if and only if". -/
theorem spec_C5_cex :
    selectWork fsDirAtDest archX (clientDir "/o") = [] ∧
    fsDirAtDest.hasFile (destSelect (clientDir "/o") "x.pyj") = false ∧
    "x.pyj" ∈ archX.names ∧ strHasSuffix "x.pyj" ".pyj" = true := by
  decide

/-- C5 (amended): an archive entry becomes a work item if and only if its
name ends with `.pyj` and NOTHING — neither a regular file nor a
directory (`Path.exists()`) — already exists at its DestinationPath; the
work item carries the bytes read for that name; entries with other
suffixes are ignored entirely; and every name submitted to the adapter in
a run is one of these selected work items, so a skipped entry gets no
adapter call. -/
theorem spec_C5 :
    (∀ (fs : FS) (arch : Archive) (ccd : String) (n : String) (b : Bytes),
      (n, b) ∈ selectWork fs arch ccd ↔
        (n ∈ arch.names ∧ strHasSuffix n ".pyj" = true ∧
          fs.existsPath (destSelect ccd n) = false ∧ b = arch.read n)) ∧
    (∀ (c : Collab) (arch : Archive) (outBase : String) (jobs : Int)
      (sched : List (String × Bytes) → List (String × Bytes))
      (fs0 : FS) (ej0 : Option (String × String)),
      List.Perm (sched (workOf arch outBase fs0)) (workOf arch outBase fs0) →
      ∀ m ∈ (runMain c arch outBase jobs sched fs0 ej0).calls,
        (m, arch.read m) ∈ workOf arch outBase fs0) := by
  refine ⟨selectWork_mem, ?_⟩
  intro c arch outBase jobs sched fs0 ej0 hperm m hm
  by_cases hW : workOf arch outBase fs0 = []
  · rw [runMain_empty c arch outBase jobs sched fs0 ej0 hW] at hm
    simp at hm
  · by_cases hj : jobs ≤ 0
    · rw [runMain_fatal_val c arch outBase jobs sched fs0 ej0 hW hj] at hm
      simp at hm
    · have hj1 : (1 : Int) ≤ jobs := by omega
      rw [runMain_calls_run c arch outBase jobs sched fs0 ej0 hW hj1] at hm
      rcases List.mem_map.mp hm with ⟨w, hw, hwm⟩
      have hwW := hperm.mem_iff.mp hw
      have hread := selectWork_reads _ arch _ w hwW
      have hwval : w = (m, arch.read m) := by
        obtain ⟨a, b⟩ := w
        simp only at hwm hread
        subst hwm
        rw [hread]
      rw [← hwval]
      exact hwW

theorem spec_C5_witness :
    (("x.pyj", ([0] : Bytes)) ∈ selectWork fsEmpty archX (clientDir "/o")) ∧
    ∀ m ∈ (runMain okCollab archX "/o" 1 id fsEmpty none).calls,
      (m, archX.read m) ∈ workOf archX "/o" fsEmpty :=
  ⟨(spec_C5.1 fsEmpty archX (clientDir "/o") "x.pyj" [0]).mpr (by decide),
   spec_C5.2 okCollab archX "/o" 1 id fsEmpty none (List.Perm.refl _)⟩

/-- C6 counterexample: the claim says every entry's DestinationPath
resolves beneath `outputRoot/client_code/`.  `pathlib` join discards the
left operand when the right operand is absolute, so the member name
`/evil.pyj` yields DestinationPath `/evil.py`, which does not lie beneath
`/o/client_code/`. -/
theorem spec_C6_cex :
    destSelect (clientDir "/o") "/evil.pyj" = "/evil.py" ∧
    ¬ ∃ rest : List Char, (destSelect (clientDir "/o") "/evil.pyj").data =
      (clientDir "/o").data ++ '/' :: rest := by
  constructor
  · decide
  · rintro ⟨rest, hr⟩
    have hlenL : (destSelect (clientDir "/o") "/evil.pyj").data.length = 8 := by
      decide
    rw [hr] at hlenL
    have hc : (clientDir "/o").data.length = 14 := by decide
    rw [List.length_append, List.length_cons, hc] at hlenL
    omega

/-- C6 (amended): the DestinationPath is computed by one deterministic
rule — replace the final extension of the joined path's last component
(in `pathlib`'s sense, which is empty for a bare `.pyj` component) with
`.py` — and the two code sites that need it (work selection, line 128,
and the result sink, line 145) are literally the same expression, so they
always agree.  For a RELATIVE entry name the result lies beneath
`outputRoot/client_code/`, and when the final component is a proper
`*.pyj` name it is exactly the name with `.pyj` stripped and `.py`
appended; an absolute entry name instead replaces the root entirely (see
the counterexample). -/
theorem spec_C6 :
    (∀ (ccd n : String), destSelect ccd n = destSink ccd n) ∧
    (∀ (outBase n : String), isAbs n = false →
      ∃ rest : List Char, (destSelect (clientDir outBase) n).data =
        (clientDir outBase).data ++ '/' :: rest) ∧
    (∀ (outBase n : String), isAbs n = false →
      strHasSuffix n ".pyj" = true →
      ¬ compNameL n.data = ['.', 'p', 'y', 'j'] →
      (destSelect (clientDir outBase) n).data =
        (clientDir outBase).data ++ '/' ::
          (n.data.take (n.data.length - 4) ++ ['.', 'p', 'y'])) := by
  refine ⟨fun _ _ => rfl, ?_, ?_⟩
  · intro outBase n habs
    refine ⟨n.data.take (n.data.length -
      (pySuffix (compNameL n.data)).length) ++ ['.', 'p', 'y'], ?_⟩
    show withSuffixL (pathJoinL (clientDir outBase).data n.data)
      ['.', 'p', 'y'] = _
    rw [pathJoinL_rel _ n habs, withSuffixL_join_rel]
  · intro outBase n habs hsuf hcomp
    obtain ⟨pre, hpre⟩ := strHasSuffix_pyj n hsuf
    show withSuffixL (pathJoinL (clientDir outBase).data n.data)
      ['.', 'p', 'y'] = _
    rw [pathJoinL_rel _ n habs, withSuffixL_join_rel]
    have hcompn : compNameL n.data =
        (pre.reverse.takeWhile (fun c => !(c == '/'))).reverse ++
          ['.', 'p', 'y', 'j'] := by
      rw [hpre]
      exact compNameL_ends_pyj pre
    have hqne : ¬ (pre.reverse.takeWhile (fun c => !(c == '/'))).reverse = [] := by
      intro hq
      apply hcomp
      rw [hcompn, hq]
      rfl
    have hps : pySuffix (compNameL n.data) = ['.', 'p', 'y', 'j'] := by
      rw [hcompn]
      exact pySuffix_pyj _ hqne
    rw [hps]
    rfl

theorem spec_C6_witness :
    destSelect (clientDir "/o") "a.pyj" = destSink (clientDir "/o") "a.pyj" ∧
    (destSelect (clientDir "/o") "a.pyj").data =
      (clientDir "/o").data ++ '/' ::
        ("a.pyj".data.take ("a.pyj".data.length - 4) ++ ['.', 'p', 'y']) :=
  ⟨spec_C6.1 (clientDir "/o") "a.pyj",
   spec_C6.2.2 "/o" "a.pyj" (by decide) (by decide) (by decide)⟩

/-- C1 counterexample: the distinct member names `.pyj` and `.pyj.pyj`
map to the SAME DestinationPath (`with_suffix` treats a bare `.pyj`
component as having no extension and appends, while it strips the proper
`.pyj` extension of `.pyj.pyj`).  Both are submitted; `.pyj` succeeds and
writes the shared destination, `.pyj.pyj` fails decompression.  After the
run, for the submitted item `.pyj.pyj` a source file exists at its
DestinationPath AND its name is an ErrorMap key — "never both" is
violated. -/
theorem spec_C1_cex :
    ((".pyj.pyj", ([1] : Bytes)) ∈ workOf archDot "/o" fsEmpty) ∧
    (runMain mixCollab archDot "/o" 1 id fsEmpty none).fs.hasFile
      (destSink (clientDir "/o") ".pyj.pyj") = true ∧
    assocLookup (runMain mixCollab archDot "/o" 1 id fsEmpty none).errors
      ".pyj.pyj" = some "Error -3 while decompressing data" := by
  decide

/-- C1 (amended): for every submitted work item, after a full run
(concurrency at least 1) exactly one terminal effect holds — either a
source file exists at its DestinationPath and its name is not an ErrorMap
key, or no file exists there and its name is an ErrorMap key — PROVIDED
distinct submitted names have distinct DestinationPaths (the
counterexample shows "never both" fails when two names collide on one
destination).  An item whose adapter error message is empty counts as the
file-written case when the sink's write goes through; a write-stage
failure (blocking file on the parent chain, directory at the
destination) lands the item in the ErrorMap with no file, still exactly
one effect. -/
theorem spec_C1 (c : Collab) (arch : Archive) (outBase : String)
    (jobs : Int) (sched : List (String × Bytes) → List (String × Bytes))
    (fs0 : FS) (ej0 : Option (String × String)) (hj : (1 : Int) ≤ jobs)
    (hperm : List.Perm (sched (workOf arch outBase fs0))
      (workOf arch outBase fs0))
    (hinj : ∀ w1 ∈ workOf arch outBase fs0, ∀ w2 ∈ workOf arch outBase fs0,
      destSink (clientDir outBase) w1.1 = destSink (clientDir outBase) w2.1 →
        w1.1 = w2.1) :
    ∀ w ∈ workOf arch outBase fs0,
      ((runMain c arch outBase jobs sched fs0 ej0).fs.hasFile
          (destSink (clientDir outBase) w.1) = true ∧
        assocLookup (runMain c arch outBase jobs sched fs0 ej0).errors
          w.1 = none) ∨
      ((runMain c arch outBase jobs sched fs0 ej0).fs.hasFile
          (destSink (clientDir outBase) w.1) = false ∧
        ∃ m, assocLookup (runMain c arch outBase jobs sched fs0 ej0).errors
          w.1 = some m) := by
  intro w hw
  have hW : ¬ workOf arch outBase fs0 = [] := by
    intro hc
    rw [hc] at hw
    exact List.not_mem_nil w hw
  obtain ⟨n, b⟩ := w
  obtain ⟨hn, hsuf, hex, hb⟩ :=
    (selectWork_mem (fs0.mkdirAt (clientDir outBase)) arch
      (clientDir outBase) n b).mp hw
  rw [dest_eq] at hex
  rw [runMain_run c arch outBase jobs sched fs0 ej0 hW hj]
  have hI : ∀ v ∈ sched (workOf arch outBase fs0),
      (v.1 = n → v = (n, b)) ∧
      (destSink (clientDir outBase) v.1 = destSink (clientDir outBase) n →
        v.1 = n) := by
    intro v hv
    have hvW := hperm.mem_iff.mp hv
    refine ⟨?_, ?_⟩
    · intro hv1
      obtain ⟨v1, v2⟩ := v
      simp only at hv1
      have hv2 : v2 = arch.read v1 :=
        selectWork_reads _ arch _ (v1, v2) hvW
      subst hv1
      rw [hv2, ← hb]
    · intro hd
      exact hinj v hvW (n, b) hw hd
  have hTri := TriState_fold c (clientDir outBase) n b
    (sched (workOf arch outBase fs0))
    { fs := fs0.mkdirAt (clientDir outBase), errors := [] } hI
    (Or.inl ⟨rfl, (existsPath_false_parts _ _ hex).1⟩)
  obtain ⟨I1, I2, hsplit⟩ :=
    List.append_of_mem (hperm.mem_iff.mpr hw)
  have hkeep : (runSink c (clientDir outBase)
        { fs := fs0.mkdirAt (clientDir outBase), errors := [] }
        (sched (workOf arch outBase fs0))).fs.hasFile
        (destSink (clientDir outBase) n) = true ∨
      ¬ assocLookup (runSink c (clientDir outBase)
        { fs := fs0.mkdirAt (clientDir outBase), errors := [] }
        (sched (workOf arch outBase fs0))).errors n = none := by
    rw [hsplit, runSink_append, runSink_cons]
    exact runSink_keeps_effect c (clientDir outBase) n _ I2 _
      (applyOutcome_self_effect c (clientDir outBase) _ n b)
  rcases hTri with ⟨hk, hf⟩ | ⟨_, hk, hf, _, _⟩ | ⟨⟨m, hk⟩, hf, _⟩
  · exfalso
    rcases hkeep with h1 | h1
    · rw [hf] at h1
      simp at h1
    · exact h1 hk
  · left
    exact ⟨hf, hk⟩
  · right
    exact ⟨hf, m, hk⟩

theorem spec_C1_witness :
    (((runMain mixCollab archAB "/o" 2 id fsEmpty none).fs.hasFile
        (destSink (clientDir "/o") "b.pyj") = true ∧
      assocLookup (runMain mixCollab archAB "/o" 2 id fsEmpty none).errors
        "b.pyj" = none) ∨
    ((runMain mixCollab archAB "/o" 2 id fsEmpty none).fs.hasFile
        (destSink (clientDir "/o") "b.pyj") = false ∧
      ∃ m, assocLookup (runMain mixCollab archAB "/o" 2 id fsEmpty none).errors
        "b.pyj" = some m)) :=
  spec_C1 mixCollab archAB "/o" 2 id fsEmpty none (by decide)
    (List.Perm.refl _) (by decide) ("b.pyj", [1]) (by decide)

/-- C8 counterexample: completion order — and with it pool width, which
drives it — is visible in the outcome when one destination lies on
another's parent-directory chain.  Archive members `a.pyj` and
`a.py/b.pyj` both decode fine; their destinations are `client_code/a.py`
and `client_code/a.py/b.py`.  With jobs = 1 (submission order) `a.pyj`
completes first: a FILE sits at `client_code/a.py` and the later
`mkdir(parents=True)` for `a.py/b.pyj` fails on it (`File exists`,
caught at line 155).  With jobs = 8 and reversed completion,
`a.py/b.pyj` completes first: `client_code/a.py` becomes a DIRECTORY and
`a.pyj`'s `write_text` fails on it (`Is a directory`) — different
success sets and different ErrorMap keys for the same width-independent
claim. -/
theorem spec_C8_cex :
    (runMain okCollab archNest "/o" 1 id fsEmpty none).fs.hasFile
      "/o/client_code/a.py" = true ∧
    (runMain okCollab archNest "/o" 8 List.reverse fsEmpty none).fs.hasFile
      "/o/client_code/a.py" = false ∧
    assocLookup (runMain okCollab archNest "/o" 1 id fsEmpty none).errors
      "a.py/b.pyj" = some "File exists: /o/client_code/a.py" ∧
    assocLookup (runMain okCollab archNest "/o" 8 List.reverse fsEmpty
      none).errors "a.py/b.pyj" = none ∧
    assocLookup (runMain okCollab archNest "/o" 8 List.reverse fsEmpty
      none).errors "a.pyj" = some "Is a directory: /o/client_code/a.py" := by
  decide

/-- C8 (amended): width/order invariance holds under a clean layout — no
destination lies on another destination's parent-directory chain (nor on
its own), no initial regular file blocks a chain, and no initial
directory occupies a destination.  Then two full runs with any pool
widths of at least 1 (in particular jobs = 1 versus jobs = 8) and any
completion orders produce the same per-path file observations and the
same per-key ErrorMap lookups — so the successful-destination set and
the error-key set coincide — and neither run fails.  The counterexample
shows the proviso is necessary: nested destinations make the outcome
order- and hence width-dependent. -/
theorem spec_C8 (c : Collab) (arch : Archive) (outBase : String)
    (ej0 : Option (String × String)) (fs0 : FS) (jobs1 jobs2 : Int)
    (sched1 sched2 : List (String × Bytes) → List (String × Bytes))
    (hj1 : (1 : Int) ≤ jobs1) (hj2 : (1 : Int) ≤ jobs2)
    (hp1 : List.Perm (sched1 (workOf arch outBase fs0))
      (workOf arch outBase fs0))
    (hp2 : List.Perm (sched2 (workOf arch outBase fs0))
      (workOf arch outBase fs0))
    (hA : ∀ w ∈ workOf arch outBase fs0,
      ∀ a ∈ ancestorsOf (destSink (clientDir outBase) w.1),
        (fs0.mkdirAt (clientDir outBase)).hasFile a = false)
    (hB : ∀ w ∈ workOf arch outBase fs0,
      (fs0.mkdirAt (clientDir outBase)).hasDir
        (destSink (clientDir outBase) w.1) = false)
    (hC : ∀ w ∈ workOf arch outBase fs0, ∀ v ∈ workOf arch outBase fs0,
      ¬ destSink (clientDir outBase) w.1 ∈
        ancestorsOf (destSink (clientDir outBase) v.1)) :
    (∀ p, (runMain c arch outBase jobs1 sched1 fs0 ej0).fs.hasFile p =
      (runMain c arch outBase jobs2 sched2 fs0 ej0).fs.hasFile p) ∧
    (∀ k, assocLookup (runMain c arch outBase jobs1 sched1 fs0 ej0).errors k =
      assocLookup (runMain c arch outBase jobs2 sched2 fs0 ej0).errors k) ∧
    (runMain c arch outBase jobs1 sched1 fs0 ej0).fatal = none ∧
    (runMain c arch outBase jobs2 sched2 fs0 ej0).fatal = none := by
  refine ⟨?_, ?_, ?_, ?_⟩
  · intro p
    exact bool_eq_of_iff
      ((runMain_hasFile_char c arch outBase jobs1 sched1 fs0 ej0 hj1 hp1
        hA hB hC p).trans
      (runMain_hasFile_char c arch outBase jobs2 sched2 fs0 ej0 hj2 hp2
        hA hB hC p).symm)
  · intro k
    rw [runMain_lookup c arch outBase jobs1 sched1 fs0 ej0 hj1 hp1
      hA hB hC k,
      runMain_lookup c arch outBase jobs2 sched2 fs0 ej0 hj2 hp2
      hA hB hC k]
  · exact runMain_fatal_none c arch outBase jobs1 sched1 fs0 ej0 hj1
  · exact runMain_fatal_none c arch outBase jobs2 sched2 fs0 ej0 hj2

theorem spec_C8_witness :
    (∀ p, (runMain mixCollab archAB "/o" 1 id fsEmpty none).fs.hasFile p =
      (runMain mixCollab archAB "/o" 8 List.reverse fsEmpty none).fs.hasFile
        p) ∧
    (∀ k, assocLookup
        (runMain mixCollab archAB "/o" 1 id fsEmpty none).errors k =
      assocLookup
        (runMain mixCollab archAB "/o" 8 List.reverse fsEmpty none).errors
        k) ∧
    (runMain mixCollab archAB "/o" 1 id fsEmpty none).fatal = none ∧
    (runMain mixCollab archAB "/o" 8 List.reverse fsEmpty none).fatal =
      none :=
  spec_C8 mixCollab archAB "/o" none fsEmpty 1 8 id List.reverse
    (by decide) (by decide) (List.Perm.refl _) (List.reverse_perm _)
    (by decide) (by decide) (by decide)

/-- After a full run under a clean layout, re-running selection keeps
exactly the items that failed: successes now have a file at their
destination, failures still have nothing there. -/
theorem second_selection (c : Collab) (arch : Archive) (outBase : String)
    (jobs : Int) (sched : List (String × Bytes) → List (String × Bytes))
    (fs0 : FS) (ej0 : Option (String × String)) (hj : (1 : Int) ≤ jobs)
    (hperm : List.Perm (sched (workOf arch outBase fs0))
      (workOf arch outBase fs0))
    (hinj : ∀ w1 ∈ workOf arch outBase fs0, ∀ w2 ∈ workOf arch outBase fs0,
      destSink (clientDir outBase) w1.1 = destSink (clientDir outBase) w2.1 →
        w1.1 = w2.1)
    (hA : ∀ w ∈ workOf arch outBase fs0,
      ∀ a ∈ ancestorsOf (destSink (clientDir outBase) w.1),
        (fs0.mkdirAt (clientDir outBase)).hasFile a = false)
    (hB : ∀ w ∈ workOf arch outBase fs0,
      (fs0.mkdirAt (clientDir outBase)).hasDir
        (destSink (clientDir outBase) w.1) = false)
    (hC : ∀ w ∈ workOf arch outBase fs0, ∀ v ∈ workOf arch outBase fs0,
      ¬ destSink (clientDir outBase) w.1 ∈
        ancestorsOf (destSink (clientDir outBase) v.1)) :
    workOf arch outBase (runMain c arch outBase jobs sched fs0 ej0).fs =
      (workOf arch outBase fs0).filter (fun w => !(errOf c w == "")) := by
  show selectWork ((runMain c arch outBase jobs sched fs0 ej0).fs.mkdirAt
      (clientDir outBase)) arch (clientDir outBase) =
    (selectWork (fs0.mkdirAt (clientDir outBase)) arch
      (clientDir outBase)).filter (fun w => !(errOf c w == ""))
  rw [FS.mkdirAt_of_hasDir _ _
    (runMain_hasDir_ccd c arch outBase jobs sched fs0 ej0)]
  unfold selectWork
  apply filterMap_filter_of_ptwise
  intro n hn
  by_cases hsuf : strHasSuffix n ".pyj" = true
  · by_cases hex1 : (fs0.mkdirAt (clientDir outBase)).existsPath
        (destSelect (clientDir outBase) n) = true
    · have hex2 := runMain_existsPath_mono c arch outBase jobs sched fs0 ej0
        (destSelect (clientDir outBase) n) hex1
      simp [hsuf, hex1, hex2]
    · have hex1f : (fs0.mkdirAt (clientDir outBase)).existsPath
          (destSelect (clientDir outBase) n) = false := by
        cases hb : (fs0.mkdirAt (clientDir outBase)).existsPath
            (destSelect (clientDir outBase) n) with
        | false => rfl
        | true => exact absurd hb hex1
      have hmem : (n, arch.read n) ∈ workOf arch outBase fs0 :=
        (selectWork_mem _ arch _ n (arch.read n)).mpr ⟨hn, hsuf, hex1f, rfl⟩
      have hex1s : (fs0.mkdirAt (clientDir outBase)).existsPath
          (destSink (clientDir outBase) n) = false := hex1f
      by_cases hfail : errOf c (n, arch.read n) = ""
      · have hf : (runMain c arch outBase jobs sched fs0 ej0).fs.hasFile
            (destSink (clientDir outBase) n) = true :=
          (runMain_hasFile_char c arch outBase jobs sched fs0 ej0 hj hperm
            hA hB hC _).mpr (Or.inr ⟨(n, arch.read n), hmem, hfail, rfl⟩)
        have hex2 : (runMain c arch outBase jobs sched fs0 ej0).fs.existsPath
            (destSelect (clientDir outBase) n) = true := by
          unfold FS.existsPath
          rw [dest_eq, hf]
          rfl
        simp [hsuf, hex1f, hex2, hfail]
      · have hfF : (runMain c arch outBase jobs sched fs0 ej0).fs.hasFile
            (destSink (clientDir outBase) n) = false := by
          cases hbf : (runMain c arch outBase jobs sched fs0 ej0).fs.hasFile
              (destSink (clientDir outBase) n) with
          | false => rfl
          | true =>
            exfalso
            rcases (runMain_hasFile_char c arch outBase jobs sched fs0 ej0
                hj hperm hA hB hC _).mp hbf with h1 | ⟨v, hv, hve, hvd⟩
            · have := (existsPath_false_parts _ _ hex1s).1
              rw [h1] at this
              exact Bool.true_eq_false ▸ this
            · obtain ⟨v1, v2⟩ := v
              have hv1 : v1 = n := hinj (v1, v2) hv (n, arch.read n) hmem hvd
              have hv2 : v2 = arch.read v1 :=
                selectWork_reads _ arch _ (v1, v2) hv
              rw [hv1] at hv2
              rw [hv1, hv2] at hve
              exact hfail hve
        have hdF : (runMain c arch outBase jobs sched fs0 ej0).fs.hasDir
            (destSink (clientDir outBase) n) = false :=
          (runMain_hasDir_stable c arch outBase jobs sched fs0 ej0 hj hperm
            hA hB hC (destSink (clientDir outBase) n)
            (fun v hv => hC (n, arch.read n) hmem v hv)).trans
            (existsPath_false_parts _ _ hex1s).2
        have hex2 : (runMain c arch outBase jobs sched fs0 ej0).fs.existsPath
            (destSelect (clientDir outBase) n) = false := by
          unfold FS.existsPath
          rw [dest_eq, hfF, hdF]
          rfl
        have hbeq : (errOf c (n, arch.read n) == "") = false := by
          cases hbe : (errOf c (n, arch.read n) == "") with
          | false => rfl
          | true => exact absurd (eq_of_beq hbe) hfail
        simp [hsuf, hex1f, hex2, hbeq]
  · simp [hsuf]

/-- C4 counterexample: the claim says a second run re-processes nothing
(every item is Skipped).  A failed item writes no file, so the second run
selects and re-processes it: with the single member `b.pyj` failing
decompression, the second run's work list is non-empty and the adapter is
called again for `b.pyj`. -/
theorem spec_C4_cex :
    (runMain mixCollab archB "/o" 1 id
      (runMain mixCollab archB "/o" 1 id fsEmpty none).fs
      (runMain mixCollab archB "/o" 1 id fsEmpty none).errJson).calls =
        ["b.pyj"] ∧
    ¬ workOf archB "/o" (runMain mixCollab archB "/o" 1 id fsEmpty none).fs
      = [] := by
  decide

/-- C4 (amended): running the pipeline twice with no external changes,
under the clean-layout provisos (distinct destinations, no destination
on another's parent-directory chain, no initial blocking file or
directory): the second run selects exactly the items that FAILED in the
first run (successful items are Skipped thanks to their written files),
re-submits precisely those names to the adapter, and — the decode
pipeline being a pure function of name and bytes — reproduces the
identical error map, so the diagnostic artifact again holds the same
name-to-message mapping; if the first run had no failures the second run
does nothing at all (diagnostic artifact unchanged, absent if initially
absent). -/
theorem spec_C4 (c : Collab) (arch : Archive) (outBase : String)
    (jobs1 jobs2 : Int)
    (sched1 sched2 : List (String × Bytes) → List (String × Bytes))
    (fs0 : FS) (ej0 : Option (String × String))
    (hj1 : (1 : Int) ≤ jobs1) (hj2 : (1 : Int) ≤ jobs2)
    (hp1 : List.Perm (sched1 (workOf arch outBase fs0))
      (workOf arch outBase fs0))
    (hp2 : List.Perm (sched2 (workOf arch outBase
        (runMain c arch outBase jobs1 sched1 fs0 ej0).fs))
      (workOf arch outBase (runMain c arch outBase jobs1 sched1 fs0 ej0).fs))
    (hinj : ∀ w1 ∈ workOf arch outBase fs0, ∀ w2 ∈ workOf arch outBase fs0,
      destSink (clientDir outBase) w1.1 = destSink (clientDir outBase) w2.1 →
        w1.1 = w2.1)
    (hA : ∀ w ∈ workOf arch outBase fs0,
      ∀ a ∈ ancestorsOf (destSink (clientDir outBase) w.1),
        (fs0.mkdirAt (clientDir outBase)).hasFile a = false)
    (hB : ∀ w ∈ workOf arch outBase fs0,
      (fs0.mkdirAt (clientDir outBase)).hasDir
        (destSink (clientDir outBase) w.1) = false)
    (hC : ∀ w ∈ workOf arch outBase fs0, ∀ v ∈ workOf arch outBase fs0,
      ¬ destSink (clientDir outBase) w.1 ∈
        ancestorsOf (destSink (clientDir outBase) v.1)) :
    (workOf arch outBase (runMain c arch outBase jobs1 sched1 fs0 ej0).fs =
      (workOf arch outBase fs0).filter (fun w => !(errOf c w == ""))) ∧
    (List.Perm
      (runMain c arch outBase jobs2 sched2
        (runMain c arch outBase jobs1 sched1 fs0 ej0).fs
        (runMain c arch outBase jobs1 sched1 fs0 ej0).errJson).calls
      (((workOf arch outBase fs0).filter
        (fun w => !(errOf c w == ""))).map (fun w => w.1))) ∧
    (∀ k, assocLookup
        (runMain c arch outBase jobs2 sched2
          (runMain c arch outBase jobs1 sched1 fs0 ej0).fs
          (runMain c arch outBase jobs1 sched1 fs0 ej0).errJson).errors k =
      assocLookup (runMain c arch outBase jobs1 sched1 fs0 ej0).errors k) ∧
    ((runMain c arch outBase jobs1 sched1 fs0 ej0).errors = [] →
      runMain c arch outBase jobs2 sched2
          (runMain c arch outBase jobs1 sched1 fs0 ej0).fs
          (runMain c arch outBase jobs1 sched1 fs0 ej0).errJson =
        { fatal := none
          fs := (runMain c arch outBase jobs1 sched1 fs0 ej0).fs
          errors := []
          errJson := (runMain c arch outBase jobs1 sched1 fs0 ej0).errJson
          calls := [] }) := by
  have hsel := second_selection c arch outBase jobs1 sched1 fs0 ej0 hj1 hp1
    hinj hA hB hC
  have hccd : (runMain c arch outBase jobs1 sched1 fs0 ej0).fs.mkdirAt
      (clientDir outBase) =
      (runMain c arch outBase jobs1 sched1 fs0 ej0).fs :=
    FS.mkdirAt_of_hasDir _ _
      (runMain_hasDir_ccd c arch outBase jobs1 sched1 fs0 ej0)
  have hsub : ∀ w ∈ workOf arch outBase
      (runMain c arch outBase jobs1 sched1 fs0 ej0).fs,
      w ∈ workOf arch outBase fs0 ∧ ¬ errOf c w = "" := by
    intro w hw
    rw [hsel] at hw
    obtain ⟨hw1, hw2⟩ := List.mem_filter.mp hw
    refine ⟨hw1, fun hc => ?_⟩
    rw [hc] at hw2
    simp at hw2
  have hA2 : ∀ w ∈ workOf arch outBase
      (runMain c arch outBase jobs1 sched1 fs0 ej0).fs,
      ∀ a ∈ ancestorsOf (destSink (clientDir outBase) w.1),
        ((runMain c arch outBase jobs1 sched1 fs0 ej0).fs.mkdirAt
          (clientDir outBase)).hasFile a = false := by
    intro w hw a ha
    rw [hccd]
    obtain ⟨hwW, _⟩ := hsub w hw
    cases hb : (runMain c arch outBase jobs1 sched1 fs0 ej0).fs.hasFile a with
    | false => rfl
    | true =>
      exfalso
      rcases (runMain_hasFile_char c arch outBase jobs1 sched1 fs0 ej0 hj1
          hp1 hA hB hC a).mp hb with h1 | ⟨v, hvW, hve, hvd⟩
      · rw [hA w hwW a ha] at h1
        exact absurd h1 (by simp)
      · rw [← hvd] at ha
        exact absurd ha (hC v hvW w hwW)
  have hB2 : ∀ w ∈ workOf arch outBase
      (runMain c arch outBase jobs1 sched1 fs0 ej0).fs,
      ((runMain c arch outBase jobs1 sched1 fs0 ej0).fs.mkdirAt
        (clientDir outBase)).hasDir
        (destSink (clientDir outBase) w.1) = false := by
    intro w hw
    rw [hccd]
    obtain ⟨hwW, _⟩ := hsub w hw
    rw [runMain_hasDir_stable c arch outBase jobs1 sched1 fs0 ej0 hj1 hp1
      hA hB hC (destSink (clientDir outBase) w.1)
      (fun v hv => hC w hwW v hv)]
    exact hB w hwW
  have hC2 : ∀ w ∈ workOf arch outBase
      (runMain c arch outBase jobs1 sched1 fs0 ej0).fs,
      ∀ v ∈ workOf arch outBase
        (runMain c arch outBase jobs1 sched1 fs0 ej0).fs,
      ¬ destSink (clientDir outBase) w.1 ∈
        ancestorsOf (destSink (clientDir outBase) v.1) := by
    intro w hw v hv
    exact hC w (hsub w hw).1 v (hsub v hv).1
  refine ⟨hsel, ?_, ?_, ?_⟩
  · by_cases hW2 : workOf arch outBase
        (runMain c arch outBase jobs1 sched1 fs0 ej0).fs = []
    · rw [runMain_empty c arch outBase jobs2 sched2 _ _ hW2]
      have hfe : (workOf arch outBase fs0).filter
          (fun w => !(errOf c w == "")) = [] := hsel.symm.trans hW2
      rw [hfe]
      simp
    · rw [runMain_calls_run c arch outBase jobs2 sched2 _ _ hW2 hj2]
      refine (hp2.map (fun w => w.1)).trans ?_
      rw [hsel]
  · intro k
    rw [runMain_lookup c arch outBase jobs2 sched2 _ _ hj2 hp2 hA2 hB2
      hC2 k,
      runMain_lookup c arch outBase jobs1 sched1 fs0 ej0 hj1 hp1 hA hB
      hC k]
    have hEquiv : (∃ w ∈ workOf arch outBase
          (runMain c arch outBase jobs1 sched1 fs0 ej0).fs,
        w.1 = k ∧ ¬ errOf c w = "") ↔
        (∃ w ∈ workOf arch outBase fs0, w.1 = k ∧ ¬ errOf c w = "") := by
      rw [hsel]
      constructor
      · rintro ⟨w, hw, hrest⟩
        exact ⟨w, (List.mem_filter.mp hw).1, hrest⟩
      · rintro ⟨w, hw, hk, hne⟩
        refine ⟨w, List.mem_filter.mpr ⟨hw, ?_⟩, hk, hne⟩
        cases hbe : (errOf c w == "") with
        | false => rfl
        | true => exact absurd (eq_of_beq hbe) hne
    by_cases hE : ∃ w ∈ workOf arch outBase fs0, w.1 = k ∧ ¬ errOf c w = ""
    · rw [if_pos hE, if_pos (hEquiv.mpr hE)]
    · rw [if_neg hE, if_neg (fun h2 => hE (hEquiv.mp h2))]
  · intro hnil
    have hallok : ∀ w ∈ workOf arch outBase fs0, errOf c w = "" :=
      (runMain_errors_nil_char c arch outBase jobs1 sched1 fs0 ej0 hj1
        hp1 hA hB hC).mp hnil
    have hfilter : (workOf arch outBase fs0).filter
        (fun w => !(errOf c w == "")) = [] := by
      rw [List.filter_eq_nil_iff]
      intro w hw
      have hok := hallok w hw
      simp [hok]
    have hW2 : workOf arch outBase
        (runMain c arch outBase jobs1 sched1 fs0 ej0).fs = [] :=
      hsel.trans hfilter
    rw [runMain_empty c arch outBase jobs2 sched2 _ _ hW2]
    rw [hccd]

theorem spec_C4_witness :
    assocLookup
      (runMain mixCollab archAB "/o" 1 id
        (runMain mixCollab archAB "/o" 1 id fsEmpty none).fs
        (runMain mixCollab archAB "/o" 1 id fsEmpty none).errJson).errors
      "b.pyj" =
    assocLookup (runMain mixCollab archAB "/o" 1 id fsEmpty none).errors
      "b.pyj" :=
  (spec_C4 mixCollab archAB "/o" 1 1 id id fsEmpty none (by decide)
    (by decide) (List.Perm.refl _) (List.Perm.refl _) (by decide)
    (by decide) (by decide) (by decide)).2.2.1 "b.pyj"

end Deccp
